import Mathlib

/-!
Verification of the differential structural-equivalence engine of the
`safetext` shell templating packages (`shtemplate` and `shsprintf`).

Go strings are modelled as lists of characters (`Str`); all string
operations used by the code under verification (prefix tests, substring
counts, splitting, concatenation) are byte/rune-wise and coincide with the
list model on the inputs considered here.

The shell syntax trees produced by the external `mvdan.cc/sh/v3/syntax`
parser are modelled by the mutually inductive types below.  Each
constructor carries exactly the fields that the equivalence judges read;
fields the judges never inspect (source positions, and a few flags such as
`SglQuoted.Dollar` or `Expansion.Op` that the judges do not compare) are
omitted, which is sound because no theorem below depends on them.
Operator/token enumerations are modelled as `Nat`.
-/

set_option maxHeartbeats 1000000

namespace Safetext

/-- Characters of a Go string, in order. -/
abbrev Str := List Char

/-- Shell glob metacharacters `? * + @ !` that the literal-injection checks
look for. -/
def globChars : List Char := ['?', '*', '+', '@', '!']

/-- Go `strings.HasPrefix s "-"`. -/
def startsWithDash : Str → Bool
  | '-' :: _ => true
  | _ => false

/-- A shell comment node (`syntax.Comment`); only its text is compared. -/
inductive Comment where
  | mk (text : Str)
deriving Repr

/-- Text of a comment. -/
def Comment.text : Comment → Str
  | .mk t => t

mutual

/-- Word parts (`syntax.WordPart` implementors). A `syntax.Word` is its
list of parts. -/
inductive WordPart where
  | lit (value : Str)
  | sglQuoted (value : Str)
  | dblQuoted (parts : List WordPart)
  | paramExp (p : ParamExpT)
  | cmdSubst (c : CmdSubstT)
  | arithmExpPart (a : ArithmExpT)
  | procSubst (op : Nat) (stmts : List Stmt) (last : List Comment)
  | extGlob (op : Nat) (pattern : Str)
  | braceExp (elems : List (List WordPart))

/-- `syntax.ParamExp` with the fields the judges compare. `param` is the
`Param *Lit` value, `exp` the `Exp *Expansion` whose `Word *Word` may be
nil. -/
inductive ParamExpT where
  | mk (short excl length width : Bool) (param : Option Str)
       (index : Option ArithmExpr) (slice : Option SliceT)
       (repl : Option ReplaceT) (names : Nat) (exp : Option ExpT)

/-- `syntax.CmdSubst`. -/
inductive CmdSubstT where
  | mk (backquotes tempFile replyVar : Bool) (stmts : List Stmt)
       (last : List Comment)

/-- `syntax.ArithmExp` (the word-part struct with `Bracket`, `Unsigned` and
an expression that may be nil). -/
inductive ArithmExpT where
  | mk (bracket unsigned : Bool) (x : Option ArithmExpr)

/-- `syntax.Slice`; its `Offset`/`Length` expressions may be nil. -/
inductive SliceT where
  | mk (offset length : Option ArithmExpr)

/-- `syntax.Replace`. -/
inductive ReplaceT where
  | mk (all : Bool) (orig withWord : List WordPart)

/-- `syntax.Expansion`, of which the judges only read `Word`. -/
inductive ExpT where
  | mk (word : Option (List WordPart))

/-- `syntax.ArithmExpr` implementors. -/
inductive ArithmExpr where
  | binaryArithm (op : Nat) (x y : ArithmExpr)
  | unaryArithm (op : Nat) (post : Bool) (x : ArithmExpr)
  | parenArithm (x : ArithmExpr)
  | word (parts : List WordPart)

/-- `syntax.TestExpr` implementors. -/
inductive TestExpr where
  | binaryTest (op : Nat) (x y : TestExpr)
  | unaryTest (op : Nat) (x : TestExpr)
  | parenTest (x : TestExpr)
  | word (parts : List WordPart)

/-- `syntax.Assign`. -/
inductive AssignT where
  | mk (appendB naked : Bool) (name : Option Str)
       (index : Option ArithmExpr) (value : Option (List WordPart))
       (array : Option ArrayExprT)

/-- `syntax.ArrayExpr`. -/
inductive ArrayExprT where
  | mk (elems : List ArrayElemT) (last : List Comment)

/-- `syntax.ArrayElem`. -/
inductive ArrayElemT where
  | mk (index : Option ArithmExpr) (value : Option (List WordPart))
       (comments : List Comment)

/-- `syntax.CaseItem`. -/
inductive CaseItemT where
  | mk (op : Nat) (patterns : List (List WordPart)) (stmts : List Stmt)
       (comments last : List Comment)

/-- `syntax.Loop` implementors (`WordIter`, `CStyleLoop`). -/
inductive LoopT where
  | wordIter (name : Option Str) (items : List (List WordPart))
  | cStyleLoop (init cond post : Option ArithmExpr)

/-- `syntax.Redirect`; `N`, `Word` and `Hdoc` may be nil. -/
inductive RedirectT where
  | mk (op : Nat) (n : Option Str) (word : Option (List WordPart))
       (hdoc : Option (List WordPart))

/-- `syntax.Stmt`. -/
inductive Stmt where
  | mk (comments : List Comment) (cmd : Option Command)
       (negated background coprocess : Bool) (redirs : List RedirectT)

/-- `syntax.Command` implementors. -/
inductive Command where
  | callExpr (assigns : List AssignT) (args : List (List WordPart))
  | ifClause (cond thenS : List Stmt) (elseC : Option Command)
             (condLast thenLast last : List Comment)
  | whileClause (untilFlag : Bool) (cond doS : List Stmt)
                (condLast doLast : List Comment)
  | forClause (selectFlag : Bool) (loop : LoopT) (doS : List Stmt)
              (doLast : List Comment)
  | caseClause (word : List WordPart) (items : List CaseItemT)
               (last : List Comment)
  | block (stmts : List Stmt) (last : List Comment)
  | subshell (stmts : List Stmt) (last : List Comment)
  | binaryCmd (op : Nat) (x y : Stmt)
  | funcDecl (rsrvWord : Bool) (name : Option Str) (body : Stmt)
  | arithmCmd (unsigned : Bool) (x : Option ArithmExpr)
  | testClause (x : TestExpr)
  | declClause (variant : Option Str) (args : List AssignT)
  | letClause (exprs : List ArithmExpr)
  | timeClause (stmt : Option Stmt)
  | coprocClause (name : Option (List WordPart)) (stmt : Option Stmt)

end

/-- `syntax.File`: the root of a parsed script. -/
inductive ShFile where
  | mk (stmts : List Stmt) (last : List Comment)

/-- Statements of a file. -/
def ShFile.stmts : ShFile → List Stmt
  | .mk s _ => s

/-- Trailing comments of a file. -/
def ShFile.last : ShFile → List Comment
  | .mk _ l => l

/-- Errors of the shell façades.  `invalidTemplate` stands for the public
`ErrInvalidShTemplate` value, `injection` for `ErrShInjection`, and
`engineErr` for an error surfaced unchanged from the underlying
`text/template` engine (its identity abstracted as a number). -/
inductive ShError where
  | invalidTemplate
  | injection
  | engineErr (code : Nat)
deriving DecidableEq

namespace shtemplate

/-!
The 3-way structural equivalence judge of `shtemplate/shtemplate.go`.
Argument `a` is always the baseline tree, `b` the requested tree and `c`
the mutated tree, as in the Go source.  Go's `for i := range a` loops over
arrays that were length-checked are rendered as pairwise recursions; the
two array matchers that Go does NOT length-check (`statementsArrayMatch`,
`redirectsArrayMatch`) are rendered without a length check, ignoring
excess elements of `b`/`c` exactly as the Go loop does.  Where Go would
panic (index out of range when `b` or `c` is shorter than `a`, or a nil
pointer dereference), `Execute`'s `recover` turns the panic into
`ErrShInjection`; since a `false` verdict leads to the same result at the
`Execute` boundary, those panic situations are modelled as `false`.
-/

/-- Word-comparison contexts of the 3-way judge
(`matchExactly = 0`, `forbidFlagInjection = 1`, `justStructure = 2`). -/
inductive WordCtx where
  | matchExactly
  | forbidFlagInjection
  | justStructure
deriving DecidableEq

/-- Go `flagInjected`: the baseline string does not start with `-` but the
requested or mutated string does. -/
def flagInjected (a b c : Str) : Bool :=
  !startsWithDash a && (startsWithDash b || startsWithDash c)

/-- Go `literalInjection` (3-way): the count of some character of
`? * + @ !` differs between the baseline string and the requested or
mutated string. -/
def literalInjection (a b c : Str) : Bool :=
  globChars.any fun ch => b.count ch != a.count ch || c.count ch != a.count ch

/-- Go `verifyStrings`: payload comparison dispatched on the context. -/
def verifyStrings (a b c : Str) (ctx : WordCtx) : Bool :=
  if ctx = .matchExactly then b == a && c == a
  else if ctx = .forbidFlagInjection then !flagInjected a b c
  else true

mutual

/-- Go `paramExprMatch`.  A nil `Exp.Word` pointer would make Go panic;
that case is modelled as `false` (see the section comment). -/
def paramExprMatch (a b c : ParamExpT) : Bool :=
  match a, b, c with
  | .mk ash aex alen awid apar aidx asl arep anam aexp,
    .mk bsh bex blen bwid bpar bidx bsl brep bnam bexp,
    .mk csh cex clen cwid cpar cidx csl crep cnam cexp =>
    (bsh == ash && csh == ash) &&
    (bex == aex && cex == aex) &&
    (blen == alen && clen == alen) &&
    (bwid == awid && cwid == awid) &&
    (match apar, bpar, cpar with
     | none, none, none => true
     | some pa, some pb, some pc => pb == pa && pc == pa
     | _, _, _ => false) &&
    arithmExprOptMatch aidx bidx cidx &&
    (match asl, bsl, csl with
     | none, none, none => true
     | some sa, some sb, some sc => slicesMatch sa sb sc
     | _, _, _ => false) &&
    (match arep, brep, crep with
     | none, none, none => true
     | some ra, some rb, some rc => replaceMatch ra rb rc
     | _, _, _ => false) &&
    (bnam == anam && cnam == anam) &&
    (match aexp, bexp, cexp with
     | none, none, none => true
     | some (.mk wa), some (.mk wb), some (.mk wc) =>
       match wa, wb, wc with
       | some pa, some pb, some pc => wordsMatch pa pb pc .matchExactly
       | _, _, _ => false
     | _, _, _ => false)
termination_by (sizeOf a, 0)

/-- Go `cmdSubstMatch` (the 3-way judge does not compare comments). -/
def cmdSubstMatch (a b c : CmdSubstT) : Bool :=
  match a, b, c with
  | .mk abq atf arv ast _, .mk bbq btf brv bst _, .mk cbq ctf crv cst _ =>
    (bbq == abq && cbq == abq) &&
    (btf == atf && ctf == atf) &&
    (brv == arv && crv == arv) &&
    statementsArrayMatch ast bst cst
termination_by (sizeOf a, 0)

/-- Go `slicesMatch`; the offset/length expressions may be nil and are
compared through the possibly-nil interface semantics. -/
def slicesMatch (a b c : SliceT) : Bool :=
  match a, b, c with
  | .mk ao al, .mk bo bl, .mk co cl =>
    arithmExprOptMatch ao bo co && arithmExprOptMatch al bl cl
termination_by (sizeOf a, 0)

/-- Go `replaceMatch`. -/
def replaceMatch (a b c : ReplaceT) : Bool :=
  match a, b, c with
  | .mk aall aorig awith, .mk ball borig bwith, .mk call corig cwith =>
    (ball == aall && call == aall) &&
    wordsMatch aorig borig corig .justStructure &&
    wordsMatch awith bwith cwith .justStructure
termination_by (sizeOf a, 0)

/-- Go `arithmExpMatch`. -/
def arithmExpMatch (a b c : ArithmExpT) : Bool :=
  match a, b, c with
  | .mk abr aun ax, .mk bbr bun bx, .mk cbr cun cx =>
    (bbr == abr && cbr == abr) &&
    (bun == aun && cun == aun) &&
    arithmExprOptMatch ax bx cx
termination_by (sizeOf a, 0)

/-- Go `arithmExprArrayMatch`: length check followed by the loop. -/
def arithmExprArrayMatch (a b c : List ArithmExpr) : Bool :=
  (b.length == a.length && c.length == a.length) &&
  arithmExprPairwise a b c
termination_by (sizeOf a, 1)

/-- Element-wise loop of `arithmExprArrayMatch` (lengths pre-checked). -/
def arithmExprPairwise (a b c : List ArithmExpr) : Bool :=
  match a, b, c with
  | [], _, _ => true
  | x :: xs, y :: ys, z :: zs =>
    arithmExprMatch x y z && arithmExprPairwise xs ys zs
  | _ :: _, _, _ => false
termination_by (sizeOf a, 0)

/-- Go `arithmExprMatch` on non-nil `ArithmExpr` interface values: a
`reflect.TypeOf` comparison followed by a kind switch. -/
def arithmExprMatch (a b c : ArithmExpr) : Bool :=
  match a, b, c with
  | .binaryArithm aop ax ay, .binaryArithm bop bx by2, .binaryArithm cop cx cy =>
    (bop == aop && cop == aop) &&
    arithmExprMatch ax bx cx &&
    arithmExprMatch ay by2 cy
  | .unaryArithm aop apo ax, .unaryArithm bop bpo bx, .unaryArithm cop cpo cx =>
    (bop == aop && cop == aop) &&
    (bpo == apo && cpo == apo) &&
    arithmExprMatch ax bx cx
  | .parenArithm ax, .parenArithm bx, .parenArithm cx => arithmExprMatch ax bx cx
  | .word ap2, .word bp, .word cp => wordsMatch ap2 bp cp .justStructure
  | _, _, _ => false
termination_by (sizeOf a, 0)

/-- Go `arithmExprMatch` on possibly-nil interface values: `reflect.TypeOf`
of nil equals itself, so three nils match and a nil/non-nil mix fails.
This also renders Go's `(b.X == nil) != (a.X == nil)` pre-checks followed
by a guarded call, which have the same truth table. -/
def arithmExprOptMatch (a b c : Option ArithmExpr) : Bool :=
  match a, b, c with
  | none, none, none => true
  | some x, some y, some z => arithmExprMatch x y z
  | _, _, _ => false
termination_by (sizeOf a, 0)

/-- Go `assignArrayMatch`: length check followed by the loop. -/
def assignArrayMatch (a b c : List AssignT) : Bool :=
  (b.length == a.length && c.length == a.length) &&
  assignPairwise a b c
termination_by (sizeOf a, 1)

/-- Element-wise loop of `assignArrayMatch` (lengths pre-checked). -/
def assignPairwise (a b c : List AssignT) : Bool :=
  match a, b, c with
  | [], _, _ => true
  | x :: xs, y :: ys, z :: zs => assignMatch x y z && assignPairwise xs ys zs
  | _ :: _, _, _ => false
termination_by (sizeOf a, 0)

/-- Go `assignMatch`. -/
def assignMatch (a b c : AssignT) : Bool :=
  match a, b, c with
  | .mk aap anak anam aidx aval aarr,
    .mk bap bnak bnam bidx bval barr,
    .mk cap cnak cnam cidx cval carr =>
    (bap == aap && cap == aap) &&
    (bnak == anak && cnak == anak) &&
    (match anam, bnam, cnam with
     | none, none, none => true
     | some na, some nb, some nc => nb == na && nc == na
     | _, _, _ => false) &&
    arithmExprOptMatch aidx bidx cidx &&
    (match aval, bval, cval with
     | none, none, none => true
     | some va, some vb, some vc => wordsMatch va vb vc .justStructure
     | _, _, _ => false) &&
    (match aarr, barr, carr with
     | none, none, none => true
     | some ra, some rb, some rc => arrayExprMatch ra rb rc
     | _, _, _ => false)
termination_by (sizeOf a, 0)

/-- Go `arrayExprMatch` (the 3-way judge compares only the elements). -/
def arrayExprMatch (a b c : ArrayExprT) : Bool :=
  match a, b, c with
  | .mk ae _, .mk be _, .mk ce _ =>
    (be.length == ae.length && ce.length == ae.length) &&
    arrayElemPairwise ae be ce
termination_by (sizeOf a, 0)

/-- Element-wise loop of `arrayExprMatch` (lengths pre-checked). -/
def arrayElemPairwise (a b c : List ArrayElemT) : Bool :=
  match a, b, c with
  | [], _, _ => true
  | x :: xs, y :: ys, z :: zs => arrayElemMatch x y z && arrayElemPairwise xs ys zs
  | _ :: _, _, _ => false
termination_by (sizeOf a, 0)

/-- Go `arrayElemMatch` (the 3-way judge does not compare comments). -/
def arrayElemMatch (a b c : ArrayElemT) : Bool :=
  match a, b, c with
  | .mk aidx aval _, .mk bidx bval _, .mk cidx cval _ =>
    arithmExprOptMatch aidx bidx cidx &&
    (match aval, bval, cval with
     | none, none, none => true
     | some va, some vb, some vc => wordsMatch va vb vc .justStructure
     | _, _, _ => false)
termination_by (sizeOf a, 0)

/-- Go `caseItemArrayMatch`: length check followed by the loop. -/
def caseItemArrayMatch (a b c : List CaseItemT) : Bool :=
  (b.length == a.length && c.length == a.length) &&
  caseItemPairwise a b c
termination_by (sizeOf a, 1)

/-- Element-wise loop of `caseItemArrayMatch` (lengths pre-checked). -/
def caseItemPairwise (a b c : List CaseItemT) : Bool :=
  match a, b, c with
  | [], _, _ => true
  | x :: xs, y :: ys, z :: zs => caseItemMatch x y z && caseItemPairwise xs ys zs
  | _ :: _, _, _ => false
termination_by (sizeOf a, 0)

/-- Go `caseItemMatch` (the 3-way judge does not compare comments). -/
def caseItemMatch (a b c : CaseItemT) : Bool :=
  match a, b, c with
  | .mk aop apat ast _ _, .mk bop bpat bst _ _, .mk cop cpat cst _ _ =>
    (bop == aop && cop == aop) &&
    wordsArrayMatch apat bpat cpat .justStructure &&
    statementsArrayMatch ast bst cst
termination_by (sizeOf a, 0)

/-- Go `loopMatch`. -/
def loopMatch (a b c : LoopT) : Bool :=
  match a, b, c with
  | .wordIter anam aitems, .wordIter bnam bitems, .wordIter citemsnam citems =>
    (match anam, bnam, citemsnam with
     | none, none, none => true
     | some na, some nb, some nc => nb == na && nc == na
     | _, _, _ => false) &&
    wordsArrayMatch aitems bitems citems .justStructure
  | .cStyleLoop ai ac ap2, .cStyleLoop bi bc bp, .cStyleLoop ci cc cp =>
    arithmExprOptMatch ai bi ci &&
    arithmExprOptMatch ac bc cc &&
    arithmExprOptMatch ap2 bp cp
  | _, _, _ => false
termination_by (sizeOf a, 0)

/-- Go `testExprMatch`. -/
def testExprMatch (a b c : TestExpr) : Bool :=
  match a, b, c with
  | .binaryTest aop ax ay, .binaryTest bop bx by2, .binaryTest cop cx cy =>
    (bop == aop && cop == aop) &&
    testExprMatch ax bx cx &&
    testExprMatch ay by2 cy
  | .unaryTest aop ax, .unaryTest bop bx, .unaryTest cop cx =>
    (bop == aop && cop == aop) && testExprMatch ax bx cx
  | .parenTest ax, .parenTest bx, .parenTest cx => testExprMatch ax bx cx
  | .word ap2, .word bp, .word cp => wordsMatch ap2 bp cp .justStructure
  | _, _, _ => false
termination_by (sizeOf a, 0)

/-- Go `wordsArrayMatch`: length check followed by the loop. -/
def wordsArrayMatch (a b c : List (List WordPart)) (ctx : WordCtx) : Bool :=
  (b.length == a.length && c.length == a.length) &&
  wordsArrayPairwise a b c ctx
termination_by (sizeOf a, 1)

/-- Element-wise loop of `wordsArrayMatch` (lengths pre-checked). -/
def wordsArrayPairwise (a b c : List (List WordPart)) (ctx : WordCtx) : Bool :=
  match a, b, c with
  | [], _, _ => true
  | x :: xs, y :: ys, z :: zs =>
    wordsMatch x y z ctx && wordsArrayPairwise xs ys zs ctx
  | _ :: _, _, _ => false
termination_by (sizeOf a, 0)

/-- Go `wordsMatch`: length check followed by the loop over the parts. -/
def wordsMatch (a b c : List WordPart) (ctx : WordCtx) : Bool :=
  (b.length == a.length && c.length == a.length) &&
  wordsPairwise a b c ctx
termination_by (sizeOf a, 1)

/-- Element-wise loop of `wordsMatch` (lengths pre-checked). -/
def wordsPairwise (a b c : List WordPart) (ctx : WordCtx) : Bool :=
  match a, b, c with
  | [], _, _ => true
  | x :: xs, y :: ys, z :: zs =>
    wordPartsMatch x y z ctx && wordsPairwise xs ys zs ctx
  | _ :: _, _, _ => false
termination_by (sizeOf a, 0)

/-- Go `wordPartsMatch`: a `reflect.TypeOf` comparison followed by a kind
switch.  In the `Lit` case `verifyStrings` is consulted for the context
rule and `literalInjection` is checked regardless of context. -/
def wordPartsMatch (a b c : WordPart) (ctx : WordCtx) : Bool :=
  match a, b, c with
  | .lit av, .lit bv, .lit cv =>
    verifyStrings av bv cv ctx && !literalInjection av bv cv
  | .sglQuoted av, .sglQuoted bv, .sglQuoted cv => verifyStrings av bv cv ctx
  | .dblQuoted ap2, .dblQuoted bp, .dblQuoted cp => wordsMatch ap2 bp cp ctx
  | .paramExp pa, .paramExp pb, .paramExp pc => paramExprMatch pa pb pc
  | .cmdSubst ca, .cmdSubst cb, .cmdSubst cc => cmdSubstMatch ca cb cc
  | .arithmExpPart aa, .arithmExpPart ab, .arithmExpPart ac => arithmExpMatch aa ab ac
  | .procSubst aop ast _, .procSubst bop bst _, .procSubst cop cst _ =>
    (bop == aop && cop == aop) && statementsArrayMatch ast bst cst
  | .extGlob aop apat, .extGlob bop bpat, .extGlob cop cpat =>
    (bop == aop && cop == aop) && (bpat == apat && cpat == apat)
  | .braceExp ae, .braceExp be, .braceExp ce => wordsArrayMatch ae be ce ctx
  | _, _, _ => false
termination_by (sizeOf a, 0)

/-- Go `commandsMatch`: a `reflect.TypeOf` comparison followed by a kind
switch.  Nil `FuncDecl.Name`, `TimeClause.Stmt` or `CoprocClause`
name/statement pointers would make Go panic and are modelled as `false`. -/
def commandsMatch (a b c : Command) : Bool :=
  match a, b, c with
  | .callExpr aas aargs, .callExpr bas bargs, .callExpr cas cargs =>
    assignArrayMatch aas bas cas &&
    (bargs.length == aargs.length && cargs.length == aargs.length) &&
    callArgsMatch aargs bargs cargs .matchExactly
  | .ifClause acond athen aelse _ _ _, .ifClause bcond bthen belse _ _ _,
    .ifClause ccond cthen celse _ _ _ =>
    statementsArrayMatch acond bcond ccond &&
    statementsArrayMatch athen bthen cthen &&
    (match aelse, belse, celse with
     | none, none, none => true
     | some ea, some eb, some ec => commandsMatch ea eb ec
     | _, _, _ => false)
  | .whileClause aun acond ado _ _, .whileClause bun bcond bdo _ _,
    .whileClause cun ccond cdo _ _ =>
    (bun == aun && cun == aun) &&
    statementsArrayMatch acond bcond ccond &&
    statementsArrayMatch ado bdo cdo
  | .forClause asel aloop ado _, .forClause bsel bloop bdo _,
    .forClause csel cloop cdo _ =>
    (bsel == asel && csel == asel) &&
    loopMatch aloop bloop cloop &&
    statementsArrayMatch ado bdo cdo
  | .caseClause aw aitems _, .caseClause bw bitems _, .caseClause cw citems _ =>
    wordsMatch aw bw cw .justStructure &&
    caseItemArrayMatch aitems bitems citems
  | .block ast _, .block bst _, .block cst _ => statementsArrayMatch ast bst cst
  | .subshell ast _, .subshell bst _, .subshell cst _ =>
    statementsArrayMatch ast bst cst
  | .binaryCmd aop ax ay, .binaryCmd bop bx by2, .binaryCmd cop cx cy =>
    (bop == aop && cop == aop) &&
    statementsMatch ax bx cx &&
    statementsMatch ay by2 cy
  | .funcDecl arw anam abody, .funcDecl brw bnam bbody, .funcDecl crw cnam cbody =>
    (brw == arw && crw == arw) &&
    (match anam, bnam, cnam with
     | some na, some nb, some nc => nb == na && nc == na
     | _, _, _ => false) &&
    statementsMatch abody bbody cbody
  | .arithmCmd aun ax, .arithmCmd bun bx, .arithmCmd cun cx =>
    (bun == aun && cun == aun) && arithmExprOptMatch ax bx cx
  | .testClause ax, .testClause bx, .testClause cx => testExprMatch ax bx cx
  | .declClause avar aargs, .declClause bvar bargs, .declClause cvar cargs =>
    (match avar, bvar, cvar with
     | none, none, none => true
     | some va, some vb, some vc => vb == va && vc == va
     | _, _, _ => false) &&
    assignArrayMatch aargs bargs cargs
  | .letClause ae, .letClause be, .letClause ce => arithmExprArrayMatch ae be ce
  | .timeClause ast, .timeClause bst, .timeClause cst =>
    (match ast, bst, cst with
     | some sa, some sb, some sc => statementsMatch sa sb sc
     | _, _, _ => false)
  | .coprocClause anam ast, .coprocClause bnam bst, .coprocClause cnam cst =>
    (match anam, bnam, cnam with
     | some na, some nb, some nc => wordsMatch na nb nc .justStructure
     | _, _, _ => false) &&
    (match ast, bst, cst with
     | some sa, some sb, some sc => statementsMatch sa sb sc
     | _, _, _ => false)
  | _, _, _ => false
termination_by (sizeOf a, 0)

/-- Loop over `CallExpr.Args` (lengths pre-checked): the first argument is
the command name and is compared with `matchExactly`; all later arguments
are compared with `forbidFlagInjection`. -/
def callArgsMatch (a b c : List (List WordPart)) (ctx : WordCtx) : Bool :=
  match a, b, c with
  | [], _, _ => true
  | x :: xs, y :: ys, z :: zs =>
    wordsMatch x y z ctx && callArgsMatch xs ys zs .forbidFlagInjection
  | _ :: _, _, _ => false
termination_by (sizeOf a, 0)

/-- Go `redirectsMatch`. -/
def redirectsMatch (a b c : RedirectT) : Bool :=
  match a, b, c with
  | .mk aop an aw ah, .mk bop bn bw bh, .mk cop cn cw ch =>
    (bop == aop && cop == aop) &&
    (match an, bn, cn with
     | none, none, none => true
     | some na, some nb, some nc => nb == na && nc == na
     | _, _, _ => false) &&
    (match aw, bw, cw with
     | none, none, none => true
     | some wa, some wb, some wc => wordsMatch wa wb wc .matchExactly
     | _, _, _ => false) &&
    (match ah, bh, ch with
     | none, none, none => true
     | some ha, some hb, some hc => wordsMatch ha hb hc .matchExactly
     | _, _, _ => false)
termination_by (sizeOf a, 0)

/-- Go `redirectsArrayMatch`: NO length check — the loop runs over the
baseline array only, ignoring extra redirects of `b`/`c` (and panicking,
modelled as `false`, when `b`/`c` is shorter). -/
def redirectsArrayMatch (a b c : List RedirectT) : Bool :=
  match a, b, c with
  | [], _, _ => true
  | x :: xs, y :: ys, z :: zs => redirectsMatch x y z && redirectsArrayMatch xs ys zs
  | _ :: _, _, _ => false
termination_by (sizeOf a, 0)

/-- Go `statementsMatch` (the 3-way judge does not compare comments). -/
def statementsMatch (a b c : Stmt) : Bool :=
  match a, b, c with
  | .mk _ acmd aneg abg acop ared, .mk _ bcmd bneg bbg bcop bred,
    .mk _ ccmd cneg cbg ccop cred =>
    (bneg == aneg && cneg == aneg) &&
    (bbg == abg && cbg == abg) &&
    (bcop == acop && ccop == acop) &&
    redirectsArrayMatch ared bred cred &&
    (match acmd, bcmd, ccmd with
     | none, none, none => true
     | some ca, some cb, some cc => commandsMatch ca cb cc
     | _, _, _ => false)
termination_by (sizeOf a, 0)

/-- Go `statementsArrayMatch`: NO length check — the loop runs over the
baseline array only, ignoring extra statements of `b`/`c` (and panicking,
modelled as `false`, when `b`/`c` is shorter). -/
def statementsArrayMatch (a b c : List Stmt) : Bool :=
  match a, b, c with
  | [], _, _ => true
  | x :: xs, y :: ys, z :: zs =>
    statementsMatch x y z && statementsArrayMatch xs ys zs
  | _ :: _, _, _ => false
termination_by (sizeOf a, 0)

end

/-- Go `scriptsMatch`: a top-level length check on the statement lists
followed by `statementsArrayMatch`. -/
def scriptsMatch (a b c : ShFile) : Bool :=
  (b.stmts.length == a.stmts.length && c.stmts.length == a.stmts.length) &&
  statementsArrayMatch a.stmts b.stmts c.stmts

/-- Go `mutateString`: every rune is doubled. -/
def mutateString (s : Str) : Str := s.flatMap fun r => [r, r]

/-- Go `prefixDash`. -/
def prefixDash (s : Str) : Str := '-' :: s

/-- Orchestration of `(*Template).Execute` for non-nil data, lines 863-925
of `shtemplate.go`.  The external collaborators are abstracted into
parameters: `parse` is the shell parser applied to a rendering;
`requestedRender`, `baselineRender` and `mutatedRender` are the outcomes
of the three engine passes (identity policy; `BaselineString` with
`prefixDash`; `mutateString` with `prefixDash`), each either an engine
error or the rendered bytes (the `Clone`/tree-walk failure path is folded
into `baselineRender`'s error case, which Go returns identically).  The
result is the pair of the bytes written to the caller's writer and the
returned error; the requested rendering is materialised in a buffer first
and written only after the judge approves, exactly as in the source. -/
def Execute (parse : Str → Option ShFile)
    (requestedRender baselineRender mutatedRender : Except Nat Str) :
    Str × Option ShError :=
  match requestedRender with
  | .error e => ([], some (.engineErr e))
  | .ok requestedResult =>
    match baselineRender with
    | .error e => ([], some (.engineErr e))
    | .ok baselineResult =>
      match parse baselineResult with
      | none => ([], some .invalidTemplate)
      | some parsedBaselineResult =>
        match parse requestedResult with
        | none => ([], some .injection)
        | some parsedRequestedResult =>
          match mutatedRender with
          | .error e => ([], some (.engineErr e))
          | .ok mutatedResult =>
            match parse mutatedResult with
            | none => ([], some .injection)
            | some parsedMutatedResult =>
              if scriptsMatch parsedBaselineResult parsedRequestedResult
                  parsedMutatedResult then
                (requestedResult, none)
              else
                ([], some .injection)

end shtemplate

namespace shsprintf

/-- The fixed placeholder string `REPLACEABLE` substituted for every
argument in the baseline rendering. -/
def replaceableIndicator : Str :=
  ['R', 'E', 'P', 'L', 'A', 'C', 'E', 'A', 'B', 'L', 'E']

/-- Go `strings.Replace(x, "REPLACEABLE", new, -1)` replaces the leftmost
non-overlapping occurrences of the placeholder; this computes the list of
segments between those occurrences by scanning left to right and
consuming the placeholder whenever it starts at the current position
(which is exactly the leftmost non-overlapping rule). -/
def splitOnPlaceholder : Str → List Str
  | 'R' :: 'E' :: 'P' :: 'L' :: 'A' :: 'C' :: 'E' :: 'A' :: 'B' :: 'L' :: 'E' :: rest =>
    [] :: splitOnPlaceholder rest
  | c :: rest =>
    match splitOnPlaceholder rest with
    | h :: t2 => (c :: h) :: t2
    | [] => [[c]]
  | [] => [[]]

/-- Boolean matcher for the regex fragment `(.*) s₁ (.*) s₂ … (.*) sₙ`
anchored at the end of the subject; under the `(?s)` flag the wildcard
matches every character, so matching is pure decomposition. -/
def midMatch : List Str → Str → Bool
  | [], b => b.isEmpty
  | s :: rest, b =>
    (List.range (b.length + 1)).any fun i =>
      s.isPrefixOf (b.drop i) && midMatch rest (b.drop (i + s.length))

/-- Matcher for the whole anchored pattern `(?s)^ s₀ (.*) s₁ … (.*) sₙ $`
that `verifyStrings` builds from the segments of the baseline string. -/
def segsMatch : List Str → Str → Bool
  | [], b => b.isEmpty
  | s :: rest, b => s.isPrefixOf b && midMatch rest (b.drop s.length)

/-- Capture groups assigned by Go's leftmost greedy matching for the
fragment `(.*) s₁ (.*) s₂ … (.*) sₙ` anchored at the end: each wildcard
takes the longest extent that still lets the remainder match. -/
def greedyCaptures : List Str → Str → Option (List Str)
  | [], b => if b.isEmpty then some [] else none
  | s :: rest, b =>
    match ((List.range (b.length + 1)).filter fun i =>
        s.isPrefixOf (b.drop i) && midMatch rest (b.drop (i + s.length))).getLast? with
    | none => none
    | some i =>
      (greedyCaptures rest (b.drop (i + s.length))).map fun gs => b.take i :: gs

/-- Capture groups of the whole anchored pattern (`FindStringSubmatch`
minus the whole-match entry). -/
def fullGreedyCaptures : List Str → Str → Option (List Str)
  | [], _ => none
  | s :: rest, b =>
    if s.isPrefixOf b then greedyCaptures rest (b.drop s.length) else none

/-- Scanner of Go `literalInjection` (printf variant): `escaped` is the
state of the backslash automaton. -/
def literalInjectionScan : Str → Bool → Bool
  | [], escaped => escaped
  | c :: rest, escaped =>
    if escaped then literalInjectionScan rest false
    else if c = '\\' then literalInjectionScan rest true
    else if c ∈ globChars then true
    else literalInjectionScan rest false

/-- Go `literalInjection` (printf variant): true iff the string contains an
unescaped `? * + @ !` or ends in an unpaired `\`. -/
def literalInjection (a : Str) : Bool := literalInjectionScan a false

/-- Go `flagInjected` (printf variant). -/
def flagInjected (a b : Str) : Bool := !startsWithDash a && startsWithDash b

/-- Word-comparison context of the printf judge.  The source uses an `int`
bitmask (`matchStructure = 0`, `forbidFlagInjection = 1 << 0`,
`literal = 1 << 1`, combined with `|` and tested with `&`); the two bits
are modelled as fields. -/
structure WordCtx where
  forbidFlag : Bool
  literalBit : Bool
deriving DecidableEq

/-- The `matchStructure` context (no bit set). -/
def matchStructure : WordCtx := ⟨false, false⟩

/-- The `forbidFlagInjection` context (flag bit set). -/
def forbidFlagInjectionCtx : WordCtx := ⟨true, false⟩

/-- Go `ctx | literal`. -/
def orLiteral (c : WordCtx) : WordCtx := ⟨c.forbidFlag, true⟩

/-- Go `verifyStrings` (printf variant).  The pattern
`"(?s)^" + strings.Replace(regexp.QuoteMeta(a), "REPLACEABLE", "(.*)", -1) + "$"`
matches `b` iff `b` decomposes into the literal segments
`splitOnPlaceholder a` interleaved with arbitrary gaps:
`QuoteMeta` only inserts backslashes before metacharacters, the
placeholder contains neither a metacharacter nor a backslash and has no
non-trivial border, so quoting neither creates nor destroys placeholder
occurrences and each quoted segment matches exactly itself.  `segsMatch`
decides that matching and `fullGreedyCaptures` yields the subgroup values
Go's `FindStringSubmatch` assigns (wildcards are greedy). -/
def verifyStrings (a b : Str) (ctx : WordCtx) : Bool :=
  let segs := splitOnPlaceholder a
  if !segsMatch segs b then false
  else if ctx.forbidFlag && flagInjected a b then false
  else if ctx.literalBit then
    match fullGreedyCaptures segs b with
    | some insertedContent => insertedContent.all fun g => !literalInjection g
    | none => false
  else true

/-- Go `commentsArrayMatch`: length check followed by the loop. -/
def commentsArrayMatch (a b : List Comment) : Bool :=
  (b.length == a.length) && commentsPairwise a b
where
  /-- Element-wise loop (lengths pre-checked). -/
  commentsPairwise : List Comment → List Comment → Bool
    | [], _ => true
    | x :: xs, y :: ys =>
      verifyStrings x.text y.text matchStructure && commentsPairwise xs ys
    | _ :: _, [] => false

mutual

/-- Go `paramExprMatch` (printf variant, 2-way). -/
def paramExprMatch (a b : ParamExpT) : Bool :=
  match a, b with
  | .mk ash aex alen awid apar aidx asl arep anam aexp,
    .mk bsh bex blen bwid bpar bidx bsl brep bnam bexp =>
    (bsh == ash) && (bex == aex) && (blen == alen) && (bwid == awid) &&
    (match apar, bpar with
     | none, none => true
     | some pa, some pb => pb == pa
     | _, _ => false) &&
    arithmExprOptMatch aidx bidx &&
    (match asl, bsl with
     | none, none => true
     | some sa, some sb => slicesMatch sa sb
     | _, _ => false) &&
    (match arep, brep with
     | none, none => true
     | some ra, some rb => replaceMatch ra rb
     | _, _ => false) &&
    (bnam == anam) &&
    (match aexp, bexp with
     | none, none => true
     | some (.mk wa), some (.mk wb) =>
       match wa, wb with
       | some pa, some pb => wordsMatch pa pb matchStructure
       | _, _ => false
     | _, _ => false)
termination_by (sizeOf a, 0)

/-- Go `cmdSubstMatch` (printf variant): also compares the trailing
comments. -/
def cmdSubstMatch (a b : CmdSubstT) : Bool :=
  match a, b with
  | .mk abq atf arv ast alast, .mk bbq btf brv bst blast =>
    (bbq == abq) && (btf == atf) && (brv == arv) &&
    statementsArrayMatch ast bst &&
    commentsArrayMatch alast blast
termination_by (sizeOf a, 0)

/-- Go `slicesMatch` (printf variant). -/
def slicesMatch (a b : SliceT) : Bool :=
  match a, b with
  | .mk ao al, .mk bo bl => arithmExprOptMatch ao bo && arithmExprOptMatch al bl
termination_by (sizeOf a, 0)

/-- Go `replaceMatch` (printf variant). -/
def replaceMatch (a b : ReplaceT) : Bool :=
  match a, b with
  | .mk aall aorig awith, .mk ball borig bwith =>
    (ball == aall) &&
    wordsMatch aorig borig matchStructure &&
    wordsMatch awith bwith matchStructure
termination_by (sizeOf a, 0)

/-- Go `arithmExpMatch` (printf variant). -/
def arithmExpMatch (a b : ArithmExpT) : Bool :=
  match a, b with
  | .mk abr aun ax, .mk bbr bun bx =>
    (bbr == abr) && (bun == aun) && arithmExprOptMatch ax bx
termination_by (sizeOf a, 0)

/-- Go `arithmExprArrayMatch` (printf variant). -/
def arithmExprArrayMatch (a b : List ArithmExpr) : Bool :=
  (b.length == a.length) && arithmExprPairwise a b
termination_by (sizeOf a, 1)

/-- Element-wise loop of `arithmExprArrayMatch` (lengths pre-checked). -/
def arithmExprPairwise (a b : List ArithmExpr) : Bool :=
  match a, b with
  | [], _ => true
  | x :: xs, y :: ys => arithmExprMatch x y && arithmExprPairwise xs ys
  | _ :: _, _ => false
termination_by (sizeOf a, 0)

/-- Go `arithmExprMatch` (printf variant) on non-nil interface values. -/
def arithmExprMatch (a b : ArithmExpr) : Bool :=
  match a, b with
  | .binaryArithm aop ax ay, .binaryArithm bop bx by2 =>
    (bop == aop) && arithmExprMatch ax bx && arithmExprMatch ay by2
  | .unaryArithm aop apo ax, .unaryArithm bop bpo bx =>
    (bop == aop) && (bpo == apo) && arithmExprMatch ax bx
  | .parenArithm ax, .parenArithm bx => arithmExprMatch ax bx
  | .word ap2, .word bp => wordsMatch ap2 bp matchStructure
  | _, _ => false
termination_by (sizeOf a, 0)

/-- Go `arithmExprMatch` (printf variant) on possibly-nil interface
values; also renders the nil-pair pre-checks with guarded calls. -/
def arithmExprOptMatch (a b : Option ArithmExpr) : Bool :=
  match a, b with
  | none, none => true
  | some x, some y => arithmExprMatch x y
  | _, _ => false
termination_by (sizeOf a, 0)

/-- Go `assignArrayMatch` (printf variant). -/
def assignArrayMatch (a b : List AssignT) : Bool :=
  (b.length == a.length) && assignPairwise a b
termination_by (sizeOf a, 1)

/-- Element-wise loop of `assignArrayMatch` (lengths pre-checked). -/
def assignPairwise (a b : List AssignT) : Bool :=
  match a, b with
  | [], _ => true
  | x :: xs, y :: ys => assignMatch x y && assignPairwise xs ys
  | _ :: _, _ => false
termination_by (sizeOf a, 0)

/-- Go `assignMatch` (printf variant): the assignment name is compared
through `verifyStrings` with `matchStructure`. -/
def assignMatch (a b : AssignT) : Bool :=
  match a, b with
  | .mk aap anak anam aidx aval aarr, .mk bap bnak bnam bidx bval barr =>
    (bap == aap) && (bnak == anak) &&
    (match anam, bnam with
     | none, none => true
     | some na, some nb => verifyStrings na nb matchStructure
     | _, _ => false) &&
    arithmExprOptMatch aidx bidx &&
    (match aval, bval with
     | none, none => true
     | some va, some vb => wordsMatch va vb matchStructure
     | _, _ => false) &&
    (match aarr, barr with
     | none, none => true
     | some ra, some rb => arrayExprMatch ra rb
     | _, _ => false)
termination_by (sizeOf a, 0)

/-- Go `arrayExprMatch` (printf variant): also compares the trailing
comments. -/
def arrayExprMatch (a b : ArrayExprT) : Bool :=
  match a, b with
  | .mk ae alast, .mk be blast =>
    (be.length == ae.length) &&
    arrayElemPairwise ae be &&
    commentsArrayMatch alast blast
termination_by (sizeOf a, 0)

/-- Element-wise loop of `arrayExprMatch` (lengths pre-checked). -/
def arrayElemPairwise (a b : List ArrayElemT) : Bool :=
  match a, b with
  | [], _ => true
  | x :: xs, y :: ys => arrayElemMatch x y && arrayElemPairwise xs ys
  | _ :: _, _ => false
termination_by (sizeOf a, 0)

/-- Go `arrayElemMatch` (printf variant): also compares the comments. -/
def arrayElemMatch (a b : ArrayElemT) : Bool :=
  match a, b with
  | .mk aidx aval acom, .mk bidx bval bcom =>
    arithmExprOptMatch aidx bidx &&
    (match aval, bval with
     | none, none => true
     | some va, some vb => wordsMatch va vb matchStructure
     | _, _ => false) &&
    commentsArrayMatch acom bcom
termination_by (sizeOf a, 0)

/-- Go `caseItemArrayMatch` (printf variant). -/
def caseItemArrayMatch (a b : List CaseItemT) : Bool :=
  (b.length == a.length) && caseItemPairwise a b
termination_by (sizeOf a, 1)

/-- Element-wise loop of `caseItemArrayMatch` (lengths pre-checked). -/
def caseItemPairwise (a b : List CaseItemT) : Bool :=
  match a, b with
  | [], _ => true
  | x :: xs, y :: ys => caseItemMatch x y && caseItemPairwise xs ys
  | _ :: _, _ => false
termination_by (sizeOf a, 0)

/-- Go `caseItemMatch` (printf variant): also compares both comment
lists. -/
def caseItemMatch (a b : CaseItemT) : Bool :=
  match a, b with
  | .mk aop apat ast acom alast, .mk bop bpat bst bcom blast =>
    (bop == aop) &&
    wordsArrayMatch apat bpat matchStructure &&
    statementsArrayMatch ast bst &&
    commentsArrayMatch acom bcom &&
    commentsArrayMatch alast blast
termination_by (sizeOf a, 0)

/-- Go `loopMatch` (printf variant): the iteration variable name is
compared through `verifyStrings` with `matchStructure`. -/
def loopMatch (a b : LoopT) : Bool :=
  match a, b with
  | .wordIter anam aitems, .wordIter bnam bitems =>
    (match anam, bnam with
     | none, none => true
     | some na, some nb => verifyStrings na nb matchStructure
     | _, _ => false) &&
    wordsArrayMatch aitems bitems matchStructure
  | .cStyleLoop ai ac ap2, .cStyleLoop bi bc bp =>
    arithmExprOptMatch ai bi &&
    arithmExprOptMatch ac bc &&
    arithmExprOptMatch ap2 bp
  | _, _ => false
termination_by (sizeOf a, 0)

/-- Go `testExprMatch` (printf variant). -/
def testExprMatch (a b : TestExpr) : Bool :=
  match a, b with
  | .binaryTest aop ax ay, .binaryTest bop bx by2 =>
    (bop == aop) && testExprMatch ax bx && testExprMatch ay by2
  | .unaryTest aop ax, .unaryTest bop bx =>
    (bop == aop) && testExprMatch ax bx
  | .parenTest ax, .parenTest bx => testExprMatch ax bx
  | .word ap2, .word bp => wordsMatch ap2 bp matchStructure
  | _, _ => false
termination_by (sizeOf a, 0)

/-- Go `wordsArrayMatch` (printf variant). -/
def wordsArrayMatch (a b : List (List WordPart)) (ctx : WordCtx) : Bool :=
  (b.length == a.length) && wordsArrayPairwise a b ctx
termination_by (sizeOf a, 1)

/-- Element-wise loop of `wordsArrayMatch` (lengths pre-checked). -/
def wordsArrayPairwise (a b : List (List WordPart)) (ctx : WordCtx) : Bool :=
  match a, b with
  | [], _ => true
  | x :: xs, y :: ys => wordsMatch x y ctx && wordsArrayPairwise xs ys ctx
  | _ :: _, _ => false
termination_by (sizeOf a, 0)

/-- Go `wordsMatch` (printf variant). -/
def wordsMatch (a b : List WordPart) (ctx : WordCtx) : Bool :=
  (b.length == a.length) && wordsPairwise a b ctx
termination_by (sizeOf a, 1)

/-- Element-wise loop of `wordsMatch` (lengths pre-checked). -/
def wordsPairwise (a b : List WordPart) (ctx : WordCtx) : Bool :=
  match a, b with
  | [], _ => true
  | x :: xs, y :: ys => wordPartsMatch x y ctx && wordsPairwise xs ys ctx
  | _ :: _, _ => false
termination_by (sizeOf a, 0)

/-- Go `wordPartsMatch` (printf variant): literals are compared through
`verifyStrings` with the `literal` bit added to the context. -/
def wordPartsMatch (a b : WordPart) (ctx : WordCtx) : Bool :=
  match a, b with
  | .lit av, .lit bv => verifyStrings av bv (orLiteral ctx)
  | .sglQuoted av, .sglQuoted bv => verifyStrings av bv ctx
  | .dblQuoted ap2, .dblQuoted bp => wordsMatch ap2 bp ctx
  | .paramExp pa, .paramExp pb => paramExprMatch pa pb
  | .cmdSubst ca, .cmdSubst cb => cmdSubstMatch ca cb
  | .arithmExpPart aa, .arithmExpPart ab => arithmExpMatch aa ab
  | .procSubst aop ast alast, .procSubst bop bst blast =>
    (bop == aop) && statementsArrayMatch ast bst && commentsArrayMatch alast blast
  | .extGlob aop apat, .extGlob bop bpat =>
    (bop == aop) && (bpat == apat)
  | .braceExp ae, .braceExp be => wordsArrayMatch ae be ctx
  | _, _ => false
termination_by (sizeOf a, 0)

/-- Go `commandsMatch` (printf variant).  In the `CallExpr` case the first
argument is compared with `matchStructure` and later arguments with
`forbidFlagInjection`.  In the `FuncDecl` case the source checks
`(cmd.Name == nil) != (b.(*syntax.FuncDecl).Name != nil)` — note the
`!= nil` on the right-hand side where every other nil-pair check in the
file uses `== nil` — so two present names make the check
`false != true = true` and the function returns `false`; the transcription
below keeps that behaviour literally.  (With `a` nil and `b` present the
guarded call is skipped and the case falls through to the body
comparison; with `a` present and `b` nil Go dereferences a nil pointer,
modelled as `false`.) -/
def commandsMatch (a b : Command) : Bool :=
  match a, b with
  | .callExpr aas aargs, .callExpr bas bargs =>
    assignArrayMatch aas bas &&
    (bargs.length == aargs.length) &&
    callArgsMatch aargs bargs matchStructure
  | .ifClause acond athen aelse acl atl al, .ifClause bcond bthen belse bcl btl bl =>
    statementsArrayMatch acond bcond &&
    statementsArrayMatch athen bthen &&
    (match aelse, belse with
     | none, none => true
     | some ea, some eb => commandsMatch ea eb
     | _, _ => false) &&
    commentsArrayMatch acl bcl &&
    commentsArrayMatch atl btl &&
    commentsArrayMatch al bl
  | .whileClause aun acond ado acl adl, .whileClause bun bcond bdo bcl bdl =>
    (bun == aun) &&
    statementsArrayMatch acond bcond &&
    statementsArrayMatch ado bdo &&
    commentsArrayMatch acl bcl &&
    commentsArrayMatch adl bdl
  | .forClause asel aloop ado adl, .forClause bsel bloop bdo bdl =>
    (bsel == asel) &&
    loopMatch aloop bloop &&
    statementsArrayMatch ado bdo &&
    commentsArrayMatch adl bdl
  | .caseClause aw aitems al, .caseClause bw bitems bl =>
    wordsMatch aw bw matchStructure &&
    caseItemArrayMatch aitems bitems &&
    commentsArrayMatch al bl
  | .block ast al, .block bst bl =>
    statementsArrayMatch ast bst && commentsArrayMatch al bl
  | .subshell ast al, .subshell bst bl =>
    statementsArrayMatch ast bst && commentsArrayMatch al bl
  | .binaryCmd aop ax ay, .binaryCmd bop bx by2 =>
    (bop == aop) && statementsMatch ax bx && statementsMatch ay by2
  | .funcDecl arw anam abody, .funcDecl brw bnam bbody =>
    (brw == arw) &&
    !(anam.isNone != bnam.isSome) &&
    (match anam, bnam with
     | some na, some nb => verifyStrings na nb matchStructure
     | some _, none => false
     | _, _ => true) &&
    statementsMatch abody bbody
  | .arithmCmd aun ax, .arithmCmd bun bx =>
    (bun == aun) && arithmExprOptMatch ax bx
  | .testClause ax, .testClause bx => testExprMatch ax bx
  | .declClause avar aargs, .declClause bvar bargs =>
    (match avar, bvar with
     | none, none => true
     | some va, some vb => vb == va
     | _, _ => false) &&
    assignArrayMatch aargs bargs
  | .letClause ae, .letClause be => arithmExprArrayMatch ae be
  | .timeClause ast, .timeClause bst =>
    (match ast, bst with
     | some sa, some sb => statementsMatch sa sb
     | _, _ => false)
  | .coprocClause anam ast, .coprocClause bnam bst =>
    (match anam, bnam with
     | some na, some nb => wordsMatch na nb matchStructure
     | _, _ => false) &&
    (match ast, bst with
     | some sa, some sb => statementsMatch sa sb
     | _, _ => false)
  | _, _ => false
termination_by (sizeOf a, 0)

/-- Loop over `CallExpr.Args` (printf variant; lengths pre-checked). -/
def callArgsMatch (a b : List (List WordPart)) (ctx : WordCtx) : Bool :=
  match a, b with
  | [], _ => true
  | x :: xs, y :: ys =>
    wordsMatch x y ctx && callArgsMatch xs ys forbidFlagInjectionCtx
  | _ :: _, _ => false
termination_by (sizeOf a, 0)

/-- Go `redirectsMatch` (printf variant): the file-descriptor number is
compared through `verifyStrings` with `matchStructure`. -/
def redirectsMatch (a b : RedirectT) : Bool :=
  match a, b with
  | .mk aop an aw ah, .mk bop bn bw bh =>
    (bop == aop) &&
    (match an, bn with
     | none, none => true
     | some na, some nb => verifyStrings na nb matchStructure
     | _, _ => false) &&
    (match aw, bw with
     | none, none => true
     | some wa, some wb => wordsMatch wa wb matchStructure
     | _, _ => false) &&
    (match ah, bh with
     | none, none => true
     | some ha, some hb => wordsMatch ha hb matchStructure
     | _, _ => false)
termination_by (sizeOf a, 0)

/-- Go `redirectsArrayMatch` (printf variant): unlike the 3-way judge,
this one DOES length-check before the loop. -/
def redirectsArrayMatch (a b : List RedirectT) : Bool :=
  (b.length == a.length) && redirectsPairwise a b
termination_by (sizeOf a, 1)

/-- Element-wise loop of `redirectsArrayMatch` (lengths pre-checked). -/
def redirectsPairwise (a b : List RedirectT) : Bool :=
  match a, b with
  | [], _ => true
  | x :: xs, y :: ys => redirectsMatch x y && redirectsPairwise xs ys
  | _ :: _, _ => false
termination_by (sizeOf a, 0)

/-- Go `statementsMatch` (printf variant): also compares the statement
comments. -/
def statementsMatch (a b : Stmt) : Bool :=
  match a, b with
  | .mk acom acmd aneg abg acop ared, .mk bcom bcmd bneg bbg bcop bred =>
    (bneg == aneg) && (bbg == abg) && (bcop == acop) &&
    redirectsArrayMatch ared bred &&
    (match acmd, bcmd with
     | none, none => true
     | some ca, some cb => commandsMatch ca cb
     | _, _ => false) &&
    commentsArrayMatch acom bcom
termination_by (sizeOf a, 0)

/-- Go `statementsArrayMatch` (printf variant): unlike the 3-way judge,
this one DOES length-check before the loop. -/
def statementsArrayMatch (a b : List Stmt) : Bool :=
  (b.length == a.length) && statementsPairwise a b
termination_by (sizeOf a, 1)

/-- Element-wise loop of `statementsArrayMatch` (lengths pre-checked). -/
def statementsPairwise (a b : List Stmt) : Bool :=
  match a, b with
  | [], _ => true
  | x :: xs, y :: ys => statementsMatch x y && statementsPairwise xs ys
  | _ :: _, _ => false
termination_by (sizeOf a, 0)

end

/-- Go `scriptsMatch` (printf variant): statement arrays plus trailing
comments; the length checks live inside the array matchers here. -/
def scriptsMatch (a b : ShFile) : Bool :=
  statementsArrayMatch a.stmts b.stmts &&
  commentsArrayMatch a.last b.last

/-- Go `specialChars` of the shsprintf package: the characters of
`"\\'\"` + backtick + `${[|&;<>()*?!+@"`, the whitespace characters
space, tab, CR, NL, and `~`.  Note that `{` is in the set and that the
set is consulted for every position of the input. -/
def specialChars : List Char :=
  ['\\', '\'', '\"', '\x60', '$', '\x7b', '[', '|', '&', ';', '<', '>',
   '(', ')', '*', '?', '!', '+', '@', ' ', '\t', '\r', '\n', '~']

/-- Go `EscapeDefaultContext`: scans the input rune by rune and writes a
backslash before every rune contained in `specialChars` (before EVERY
occurrence, including a `~` or `{` at any position). -/
def EscapeDefaultContext : Str → Str
  | [] => []
  | c :: rest =>
    if c ∈ specialChars then '\\' :: c :: EscapeDefaultContext rest
    else c :: EscapeDefaultContext rest

/-- Character class `[+-0 #]` of `truncationSpecifierPattern`.  Inside a
regular-expression class `+-0` denotes the RANGE from `+` (43) to `0`
(48), so the class is `+ , - . / 0` together with space and `#`. -/
def truncFlagChars : List Char := ['+', ',', '-', '.', '/', '0', ' ', '#']

/-- Parser for the regex fragment `(\d*\.\d*)(s|v)` at the head of
`after`: returns the verb and the remainder after it.  Both `\d*` are
greedy but deterministic here, because a digit is never `.` and never
`s`/`v`. -/
def specAfterFlags (after : Str) : Option (Char × Str) :=
  match after.drop (after.takeWhile Char.isDigit).length with
  | c :: r2 =>
    if c = '.' then
      match r2.drop (r2.takeWhile Char.isDigit).length with
      | v :: rest2 => if v = 's' ∨ v = 'v' then some (v, rest2) else none
      | [] => none
    else none
  | [] => none

/-- A successful `specAfterFlags` consumes at least one character. -/
theorem specAfterFlags_length {after : Str} {v : Char} {rem : Str}
    (h : specAfterFlags after = some (v, rem)) : rem.length < after.length := by
  unfold specAfterFlags at h
  rcases hd : after.drop (after.takeWhile Char.isDigit).length with _ | ⟨c, r2⟩ <;>
    rw [hd] at h <;> dsimp only at h
  · simp at h
  · by_cases hc : c = '.'
    · rw [if_pos hc] at h
      rcases hv : r2.drop (r2.takeWhile Char.isDigit).length with _ | ⟨v2, rest2⟩ <;>
        rw [hv] at h <;> dsimp only at h
      · simp at h
      · by_cases hsv : v2 = 's' ∨ v2 = 'v'
        · rw [if_pos hsv] at h
          obtain ⟨rfl, rfl⟩ : v2 = v ∧ rest2 = rem := by simpa using h
          have h1 := congrArg List.length hd
          have h2 := congrArg List.length hv
          have hle1 : (after.takeWhile Char.isDigit).length ≤ after.length :=
            (List.takeWhile_prefix _).length_le
          have hle2 : (r2.takeWhile Char.isDigit).length ≤ r2.length :=
            (List.takeWhile_prefix _).length_le
          simp only [List.length_drop, List.length_cons] at h1 h2
          omega
        · rw [if_neg hsv] at h
          simp at h
    · rw [if_neg hc] at h
      simp at h

/-- Attempted match of `%([+-0 #]*)(\d*\.\d*)(s|v)` at the head of `s`
(the `([^%]|^)%` part is handled by the scanner).  The flag group is
greedy with backtracking: the longest flag run that lets the rest of the
pattern match is chosen.  On success, returns the replacement text
`%` + flags + verb (backreference template `${1}%${2}${4}`, group 3
dropped) and the unconsumed remainder. -/
def trySpec : Str → Option (Str × Str)
  | [] => none
  | c :: t =>
    if c = '%' then
      match (List.range ((t.takeWhile (· ∈ truncFlagChars)).length + 1)).reverse.findSome?
          (fun k => (specAfterFlags (t.drop k)).map fun vr => (k, vr.1, vr.2)) with
      | some (k, v, rem) => some ('%' :: (t.take k ++ [v]), rem)
      | none => none
    else none

/-- A successful `trySpec` consumes at least one character. -/
theorem trySpec_length {s : Str} {em rem : Str}
    (h : trySpec s = some (em, rem)) : rem.length < s.length := by
  rcases s with _ | ⟨c, t⟩
  · simp [trySpec] at h
  · unfold trySpec at h
    dsimp only at h
    by_cases hc : c = '%'
    · subst hc
      rw [if_pos rfl] at h
      rcases hfs : (List.range ((t.takeWhile (· ∈ truncFlagChars)).length + 1)).reverse.findSome?
          (fun k => (specAfterFlags (t.drop k)).map fun vr => (k, vr.1, vr.2)) with
        _ | ⟨k, v, rem2⟩ <;> rw [hfs] at h <;> dsimp only at h
      · simp at h
      · have hpair : rem2 = rem := by
          simp only [Option.some.injEq, Prod.mk.injEq] at h
          exact h.2
        obtain ⟨i, hi, hspec⟩ := List.exists_of_findSome?_eq_some hfs
        rcases hmap : specAfterFlags (t.drop i) with _ | ⟨v2, r2⟩ <;>
          rw [hmap] at hspec
        · exact absurd hspec (by simp)
        · have hr2 : r2 = rem2 := by
            simp only [Option.map_some', Option.some.injEq, Prod.mk.injEq] at hspec
            exact hspec.2.2
          have hrr : r2 = rem := hr2.trans hpair
          have hlen := specAfterFlags_length hmap
          have hd : (t.drop i).length ≤ t.length := by
            simp [List.length_drop]
          rw [← hrr]
          simp only [List.length_cons]
          omega
    · simp [hc] at h

/-- Scanner that applies `truncationSpecifierPattern.ReplaceAll` to a
format string: at each position it attempts the `([^%]|^)%…` match (the
`^` alternative only at the very start, the `[^%]` alternative consuming
the character before the `%`), emits the backreference replacement on
success and resumes after the match, exactly like Go's non-overlapping
leftmost `ReplaceAll`. -/
def truncScan : Str → Bool → Str
  | [], _ => []
  | c :: rest, atStart =>
    if c = '%' then
      if atStart then
        match h : trySpec (c :: rest) with
        | some (em, rem) => em ++ truncScan rem false
        | none => c :: truncScan rest false
      else c :: truncScan rest false
    else
      match h : trySpec rest with
      | some (em, rem) => c :: (em ++ truncScan rem false)
      | none => c :: truncScan rest false
termination_by s _ => s.length
decreasing_by
  · exact trySpec_length h
  · simp
  · simp
  · have := trySpec_length h
    simp only [List.length_cons]
    omega
  · simp

/-- Go `truncationSpecifierPattern.ReplaceAll(format, "${1}%${2}${4}")`:
strips a `(\d*\.\d*)` qualifier (which must contain a `.`) from `%s`/`%v`
conversion specifiers. -/
def truncationStrip (s : Str) : Str := truncScan s true

/-- Orchestration of `SprintfLang` (part of `shsprintf.go`).  External
collaborators are abstracted into parameters: `parse` is the shell parser
(`KeepComments(true)`, chosen language variant) applied to a rendering;
`baselineResult` stands for `fmt.Sprintf(baselineFormat, baselineArgs…)`
where `baselineFormat` is `truncationStrip` of the input format and
`baselineArgs` replaces every reachable string argument by `REPLACEABLE`
(`common.DeepCopyMutateStrings`); `requestedResult` stands for
`fmt.Sprintf(format, a…)`.  The returned pair is Go's
`(string, error)`. -/
def SprintfLang (parse : Str → Option ShFile)
    (baselineResult requestedResult : Str) : Str × Option ShError :=
  match parse baselineResult with
  | none => ([], some .invalidTemplate)
  | some parsedBaselineResult =>
    match parse requestedResult with
    | none => ([], some .injection)
    | some parsedRequestedResult =>
      if scriptsMatch parsedBaselineResult parsedRequestedResult then
        (requestedResult, none)
      else ([], some .injection)

/-- A successful `specAfterFlags` needs a `.` in its input. -/
theorem specAfterFlags_dot {after : Str} {v : Char} {rem : Str}
    (h : specAfterFlags after = some (v, rem)) : '.' ∈ after := by
  unfold specAfterFlags at h
  rcases hd : after.drop (after.takeWhile Char.isDigit).length with _ | ⟨c, r2⟩ <;>
    rw [hd] at h <;> dsimp only at h
  · simp at h
  · by_cases hc : c = '.'
    · subst hc
      have hm : '.' ∈ after.drop (after.takeWhile Char.isDigit).length := by
        rw [hd]; exact List.mem_cons_self _ _
      exact List.mem_of_mem_drop hm
    · rw [if_neg hc] at h
      simp at h

/-- Without a `.` no truncation specifier can match. -/
theorem trySpec_none_of_not_dot {s : Str} (h : '.' ∉ s) : trySpec s = none := by
  rcases s with _ | ⟨c, t⟩
  · rfl
  · unfold trySpec
    dsimp only
    by_cases hc : c = '%'
    · rw [if_pos hc]
      have hall : ∀ k ∈ (List.range ((t.takeWhile (· ∈ truncFlagChars)).length + 1)).reverse,
          (specAfterFlags (t.drop k)).map (fun vr => (k, vr.1, vr.2)) = none := by
        intro k _
        rcases hsp : specAfterFlags (t.drop k) with _ | ⟨v, rem⟩
        · rfl
        · exact absurd (List.mem_cons_of_mem c
            (List.mem_of_mem_drop (specAfterFlags_dot hsp))) h
      rw [List.findSome?_eq_none_iff.mpr hall]
    · rw [if_neg hc]

/-- A format string without `.` is left unchanged by the scanner. -/
theorem truncScan_of_not_dot {s : Str} (b : Bool) (h : '.' ∉ s) :
    truncScan s b = s := by
  induction s generalizing b with
  | nil => unfold truncScan; rfl
  | cons c rest ih =>
    have hr : '.' ∉ rest := fun hm => h (List.mem_cons_of_mem _ hm)
    have h1 : trySpec (c :: rest) = none := trySpec_none_of_not_dot h
    have h2 : trySpec rest = none := trySpec_none_of_not_dot hr
    unfold truncScan
    split
    · split
      · split
        · rename_i heq
          rw [h1] at heq
          exact absurd heq (by simp)
        · rw [ih false hr]
      · rw [ih false hr]
    · split
      · rename_i heq
        rw [h2] at heq
        exact absurd heq (by simp)
      · rw [ih false hr]

/-- `takeWhile` walks through a block of satisfying elements. -/
theorem takeWhile_all_append {p : Char → Bool} {xs ys : Str}
    (hxs : ∀ x ∈ xs, p x = true) :
    (xs ++ ys).takeWhile p = xs ++ ys.takeWhile p := by
  induction xs with
  | nil => rfl
  | cons x xs ih =>
    have hx : p x = true := hxs x (List.mem_cons_self _ _)
    simp only [List.cons_append, List.takeWhile_cons, hx, if_true]
    rw [ih fun a ha => hxs a (List.mem_cons_of_mem _ ha)]

/-- A digit other than `0` is not in the `[+-0 #]` class. -/
theorem digit_not_flagChar {c : Char} (hd : c.isDigit = true) (h0 : c ≠ '0') :
    c ∉ truncFlagChars := by
  intro hmem
  simp only [truncFlagChars, List.mem_cons, List.not_mem_nil, or_false] at hmem
  rcases hmem with rfl | rfl | rfl | rfl | rfl | rfl | rfl | rfl <;>
    first
      | exact h0 rfl
      | exact absurd hd (by decide)

/-- Parsing `(\d*\.\d*)(s|v)` against `digits ++ "." ++ digits ++ verb`
succeeds and consumes everything. -/
theorem specAfterFlags_precision {d1 d2 : Str} {v : Char}
    (hd1 : ∀ c ∈ d1, c.isDigit = true) (hd2 : ∀ c ∈ d2, c.isDigit = true)
    (hv : v = 's' ∨ v = 'v') :
    specAfterFlags (d1 ++ '.' :: (d2 ++ [v])) = some (v, []) := by
  have hvd : v.isDigit = false := by rcases hv with rfl | rfl <;> decide
  have h1 : (d1 ++ '.' :: (d2 ++ [v])).takeWhile Char.isDigit = d1 := by
    rw [takeWhile_all_append hd1]
    simp [List.takeWhile_cons]
  have h2 : (d2 ++ [v]).takeWhile Char.isDigit = d2 := by
    rw [takeWhile_all_append hd2]
    simp [List.takeWhile_cons, hvd]
  unfold specAfterFlags
  rw [h1, List.drop_left]
  dsimp only
  rw [if_pos rfl, h2, List.drop_left]
  dsimp only
  rw [if_pos hv]

/-- Parsing `(\d*\.\d*)(s|v)` against `digits ++ verb` fails: there is no
dot. -/
theorem specAfterFlags_digits_append {x : Str} {v : Char}
    (hx : ∀ c ∈ x, c.isDigit = true) (hvd : v.isDigit = false)
    (hvdot : v ≠ '.') :
    specAfterFlags (x ++ [v]) = none := by
  have h1 : (x ++ [v]).takeWhile Char.isDigit = x := by
    rw [takeWhile_all_append hx]
    simp [List.takeWhile_cons, hvd]
  unfold specAfterFlags
  rw [h1, List.drop_left]
  dsimp only
  rw [if_neg hvdot]

/-- `findSome?` over a descending range collapses to the value at `0`
when every positive index yields `none`. -/
theorem findSome?_range_reverse_zero {α : Type} (f : Nat → Option α) (n : Nat)
    (hpos : ∀ k, 0 < k → k ≤ n → f k = none) :
    (List.range (n + 1)).reverse.findSome? f = f 0 := by
  induction n with
  | zero =>
    show List.findSome? f [0] = f 0
    rcases hf : f 0 with _ | b <;> simp [List.findSome?_cons, hf]
  | succ n ih =>
    rw [List.range_succ, List.reverse_append, List.reverse_singleton,
        List.singleton_append, List.findSome?_cons,
        hpos (n + 1) (by omega) (le_refl _)]
    exact ih fun k hk hkn => hpos k hk (by omega)

/-- On a pure precision specifier `%<digits>.<digits>(s|v)` (with no
leading-zero width digit), the matcher succeeds at flag offset `0` and
consumes the whole string, producing the stripped replacement. -/
theorem trySpec_precision {d1 d2 : Str} {v : Char}
    (hd1 : ∀ c ∈ d1, c.isDigit = true)
    (hd1h : d1 = [] ∨ ∃ c cs, d1 = c :: cs ∧ c ≠ '0')
    (hd2 : ∀ c ∈ d2, c.isDigit = true) (hv : v = 's' ∨ v = 'v') :
    trySpec ('%' :: (d1 ++ '.' :: (d2 ++ [v]))) = some (['%', v], []) := by
  have hvd : v.isDigit = false := by rcases hv with rfl | rfl <;> decide
  have hvdot : v ≠ '.' := by rcases hv with rfl | rfl <;> decide
  have hpos : ∀ k, 0 < k →
      k ≤ ((d1 ++ '.' :: (d2 ++ [v])).takeWhile (· ∈ truncFlagChars)).length →
      (specAfterFlags ((d1 ++ '.' :: (d2 ++ [v])).drop k)).map
        (fun vr => (k, vr.1, vr.2)) = none := by
    rcases hd1h with rfl | ⟨c, cs, rfl, hc0⟩
    · intro k hk _
      simp only [List.nil_append]
      obtain ⟨j, rfl⟩ : ∃ j, k = j + 1 := ⟨k - 1, by omega⟩
      rw [List.drop_succ_cons]
      by_cases hj : j ≤ d2.length
      · rw [List.drop_append_of_le_length hj]
        rw [specAfterFlags_digits_append
          (fun a ha => hd2 a (List.mem_of_mem_drop ha)) hvd hvdot]
        rfl
      · rw [List.drop_eq_nil_of_le (by simp; omega)]
        rfl
    · intro k hk hbound
      exfalso
      have hcnot : c ∉ truncFlagChars :=
        digit_not_flagChar (hd1 c (List.mem_cons_self _ _)) hc0
      have : ((c :: cs ++ '.' :: (d2 ++ [v])).takeWhile
          (· ∈ truncFlagChars)).length = 0 := by
        simp only [List.cons_append, List.takeWhile_cons]
        simp [hcnot]
      omega
  unfold trySpec
  dsimp only
  rw [if_pos rfl,
      findSome?_range_reverse_zero _ _ hpos]
  rw [List.drop_zero, specAfterFlags_precision hd1 hd2 hv]
  simp

/-- The scanner leaves nothing behind an empty input. -/
theorem truncScan_nil (b : Bool) : truncScan [] b = [] := by
  unfold truncScan
  rfl

/-- `truncationStrip` on a pure precision specifier yields `%` + verb. -/
theorem truncationStrip_precision {d1 d2 : Str} {v : Char}
    (hd1 : ∀ c ∈ d1, c.isDigit = true)
    (hd1h : d1 = [] ∨ ∃ c cs, d1 = c :: cs ∧ c ≠ '0')
    (hd2 : ∀ c ∈ d2, c.isDigit = true) (hv : v = 's' ∨ v = 'v') :
    truncationStrip ('%' :: (d1 ++ '.' :: (d2 ++ [v]))) = ['%', v] := by
  have hts := trySpec_precision hd1 hd1h hd2 hv
  unfold truncationStrip truncScan
  rw [if_pos rfl, if_pos rfl]
  split
  · rename_i em rem heq
    rw [hts] at heq
    have hpair : ['%', v] = em ∧ ([] : Str) = rem := by
      simpa using heq
    obtain ⟨h1, h2⟩ := hpair
    subst h1
    subst h2
    rw [truncScan_nil]
    simp
  · rename_i heq
    rw [hts] at heq
    exact absurd heq (by simp)

end shsprintf

/-!
Claim theorems.  Each claim of the specification audit is settled by one
theorem below (plus a witness or counterexample where applicable).
-/

/-- Character set of the amended claim C9: the shell special characters
including `{`, together with whitespace, and `~` at EVERY position (not
only a leading one). -/
def amendedEscapeSet : List Char :=
  ['\\', '\'', '\"', '\x60', '$', '\x7b', '[', '|', '&', ';', '<', '>',
   '(', ')', '*', '?', '!', '+', '@', ' ', '\t', '\r', '\n', '~']

/-- C9, counterexample: the claim predicts that a `~` in non-leading
position is reproduced unchanged and (by omitting `{` from its character
set) that `{` is reproduced unchanged; `EscapeDefaultContext` escapes
both. -/
theorem claim9_counterexample :
    shsprintf.EscapeDefaultContext ['a', '~', 'b'] = ['a', '\\', '~', 'b'] ∧
    shsprintf.EscapeDefaultContext ['a', '~', 'b'] ≠ ['a', '~', 'b'] ∧
    shsprintf.EscapeDefaultContext ['a', '\x7b', 'b'] = ['a', '\\', '\x7b', 'b'] ∧
    shsprintf.EscapeDefaultContext ['a', '\x7b', 'b'] ≠ ['a', '\x7b', 'b'] := by
  refine ⟨by decide, by decide, by decide, by decide⟩

/-- C9, amended: `EscapeDefaultContext s` returns `s` with a backslash
inserted immediately before exactly each occurrence of a character in the
set `\ ' " ` $ { [ | & ; < > ( ) * ? ! + @`, each whitespace character
(space, tab, CR, NL) and each `~` — at every position, not only a leading
one; every other character is reproduced unchanged. -/
theorem claim9_amended (s : Str) :
    shsprintf.EscapeDefaultContext s =
      s.flatMap fun c => if c ∈ amendedEscapeSet then ['\\', c] else [c] := by
  induction s with
  | nil => rfl
  | cons c rest ih =>
    have hset : (c ∈ shsprintf.specialChars) = (c ∈ amendedEscapeSet) := rfl
    by_cases h : c ∈ amendedEscapeSet
    · have h2 : c ∈ shsprintf.specialChars := hset.symm ▸ h
      simp [shsprintf.EscapeDefaultContext, h2, h, ih]
    · have h2 : c ∉ shsprintf.specialChars := fun hx => h (hset ▸ hx)
      simp [shsprintf.EscapeDefaultContext, h2, h, ih]

/-- C8, counterexample: the claim says width qualifiers are stripped from
`%s`, so the baseline format of `"%5s"` would be `"%s"`; the pattern
`(\d*\.\d*)` requires a `.`, so `"%5s"` is in fact left unchanged. -/
theorem claim8_counterexample :
    shsprintf.truncationStrip ['%', '5', 's'] = ['%', '5', 's'] ∧
    shsprintf.truncationStrip ['%', '5', 's'] ≠ ['%', 's'] :=
  have h1 : shsprintf.truncationStrip ['%', '5', 's'] = ['%', '5', 's'] :=
    shsprintf.truncScan_of_not_dot true (by decide)
  ⟨h1, by rw [h1]; decide⟩

/-- C8, amended: the baseline format strips precision qualifiers — those
matching `(\d*\.\d*)`, which must contain a `.` — from `%s`/`%v`
specifiers (shown for specifiers whose width digits do not start with a
`0`, which would be captured by the flag group), while a specifier
without a `.` (in particular a pure width such as `%5s`) is left
unchanged; the placeholder still appears untruncated there because a
width only pads. -/
theorem claim8_amended :
    (∀ (d1 d2 : Str) (v : Char),
      (∀ c ∈ d1, c.isDigit = true) →
      (d1 = [] ∨ ∃ c cs, d1 = c :: cs ∧ c ≠ '0') →
      (∀ c ∈ d2, c.isDigit = true) → (v = 's' ∨ v = 'v') →
      shsprintf.truncationStrip ('%' :: (d1 ++ '.' :: (d2 ++ [v]))) = ['%', v]) ∧
    (∀ s : Str, '.' ∉ s → shsprintf.truncationStrip s = s) :=
  ⟨fun _ _ _ hd1 hd1h hd2 hv => shsprintf.truncationStrip_precision hd1 hd1h hd2 hv,
   fun _ h => shsprintf.truncScan_of_not_dot true h⟩

/-- C8, witness: `"%.4s"` is stripped to `"%s"` and `"%5s"` is left
unchanged. -/
theorem claim8_witness :
    shsprintf.truncationStrip ['%', '.', '4', 's'] = ['%', 's'] ∧
    shsprintf.truncationStrip ['%', '5', 's'] = ['%', '5', 's'] :=
  ⟨claim8_amended.1 [] ['4'] 's' (by decide) (Or.inl rfl) (by decide) (Or.inl rfl),
   claim8_amended.2 ['%', '5', 's'] (by decide)⟩

/-- C7: for non-nil data, `Execute` either returns a non-nil error
(injection, invalid template, or a propagated engine error) having
written nothing to the caller's writer, or succeeds writing exactly the
bytes of the honest (identity-policy) rendering. -/
theorem claim7_no_partial_output
    (parse : Str → Option ShFile) (r b m : Except Nat Str) :
    (∃ e, shtemplate.Execute parse r b m = ([], some e)) ∨
    (∃ s, r = .ok s ∧ shtemplate.Execute parse r b m = (s, none)) := by
  unfold shtemplate.Execute
  rcases r with e | rv
  · exact Or.inl ⟨_, rfl⟩
  rcases b with e | bv
  · exact Or.inl ⟨_, rfl⟩
  dsimp only
  split
  · exact Or.inl ⟨_, rfl⟩
  split
  · exact Or.inl ⟨_, rfl⟩
  rcases m with e | mv
  · exact Or.inl ⟨_, rfl⟩
  dsimp only
  split
  · exact Or.inl ⟨_, rfl⟩
  split
  · exact Or.inr ⟨rv, rfl, rfl⟩
  · exact Or.inl ⟨_, rfl⟩

/-- C6: error selection of the two orchestrators.  A baseline parse
failure yields the invalid-template error — before the honest rendering
is even parsed, so this holds even when the honest rendering would also
fail to parse; once the baseline parses, a parse failure of the honest
(or, for shtemplate, mutated) rendering yields the injection error, and
so does judge inequivalence. -/
theorem claim6_error_selection :
    (∀ (parse : Str → Option ShFile) (rv bv : Str) (m : Except Nat Str),
      parse bv = none →
      shtemplate.Execute parse (.ok rv) (.ok bv) m =
        ([], some .invalidTemplate)) ∧
    (∀ (parse : Str → Option ShFile) (rv bv : Str) (m : Except Nat Str) pb,
      parse bv = some pb → parse rv = none →
      shtemplate.Execute parse (.ok rv) (.ok bv) m = ([], some .injection)) ∧
    (∀ (parse : Str → Option ShFile) (rv bv mv : Str) pb pr,
      parse bv = some pb → parse rv = some pr → parse mv = none →
      shtemplate.Execute parse (.ok rv) (.ok bv) (.ok mv) =
        ([], some .injection)) ∧
    (∀ (parse : Str → Option ShFile) (rv bv mv : Str) pb pr pm,
      parse bv = some pb → parse rv = some pr → parse mv = some pm →
      shtemplate.scriptsMatch pb pr pm = false →
      shtemplate.Execute parse (.ok rv) (.ok bv) (.ok mv) =
        ([], some .injection)) ∧
    (∀ (parse : Str → Option ShFile) (bv rv : Str),
      parse bv = none →
      shsprintf.SprintfLang parse bv rv = ([], some .invalidTemplate)) ∧
    (∀ (parse : Str → Option ShFile) (bv rv : Str) pb,
      parse bv = some pb → parse rv = none →
      shsprintf.SprintfLang parse bv rv = ([], some .injection)) ∧
    (∀ (parse : Str → Option ShFile) (bv rv : Str) pb pr,
      parse bv = some pb → parse rv = some pr →
      shsprintf.scriptsMatch pb pr = false →
      shsprintf.SprintfLang parse bv rv = ([], some .injection)) := by
  refine ⟨?_, ?_, ?_, ?_, ?_, ?_, ?_⟩
  · intro parse rv bv m h1
    simp [shtemplate.Execute, h1]
  · intro parse rv bv m pb h1 h2
    simp [shtemplate.Execute, h1, h2]
  · intro parse rv bv mv pb pr h1 h2 h3
    simp [shtemplate.Execute, h1, h2, h3]
  · intro parse rv bv mv pb pr pm h1 h2 h3 hj
    simp [shtemplate.Execute, h1, h2, h3, hj]
  · intro parse bv rv h1
    simp [shsprintf.SprintfLang, h1]
  · intro parse bv rv pb h1 h2
    simp [shsprintf.SprintfLang, h1, h2]
  · intro parse bv rv pb pr h1 h2 hj
    simp [shsprintf.SprintfLang, h1, h2, hj]

/-- C6, witness: concrete parse outcomes exercising the invalid-template
case (baseline fails even though the honest rendering would too) and the
injection case (baseline parses, honest rendering fails). -/
theorem claim6_witness :
    shtemplate.Execute (fun _ => none) (.ok ['x']) (.ok []) (.ok []) =
      ([], some .invalidTemplate) ∧
    shsprintf.SprintfLang (fun s => if s.isEmpty then some (ShFile.mk [] []) else none)
      [] ['x'] = ([], some .injection) :=
  ⟨claim6_error_selection.1 (fun _ => none) ['x'] [] (.ok []) rfl,
   claim6_error_selection.2.2.2.2.2.1
     (fun s => if s.isEmpty then some (ShFile.mk [] []) else none)
     [] ['x'] (ShFile.mk [] []) rfl rfl⟩

/-- C10: `SprintfLang` either succeeds returning exactly its requested
rendering (the `fmt.Sprintf` expansion of the original, unstripped
format) with a nil error, or returns the empty string with one of the two
public errors; a non-empty result is never paired with an error and a
successful result is never altered. -/
theorem claim10_result_shape (parse : Str → Option ShFile) (bv rv : Str) :
    shsprintf.SprintfLang parse bv rv = (rv, none) ∨
    shsprintf.SprintfLang parse bv rv = ([], some .invalidTemplate) ∨
    shsprintf.SprintfLang parse bv rv = ([], some .injection) := by
  unfold shsprintf.SprintfLang
  split
  · exact Or.inr (Or.inl rfl)
  split
  · exact Or.inr (Or.inr rfl)
  split
  · exact Or.inl rfl
  · exact Or.inr (Or.inr rfl)

/-- A statement holding `echo a` (a two-word call). -/
def stmtEchoA : Stmt :=
  .mk [] (some (.callExpr [] [[.lit ['e', 'c', 'h', 'o']], [.lit ['a']]]))
    false false false []

/-- A statement holding `rm` (a one-word call). -/
def stmtRm : Stmt :=
  .mk [] (some (.callExpr [] [[.lit ['r', 'm']]])) false false false []

/-- A statement wrapping the given statements in a subshell. -/
def subshellOf (xs : List Stmt) : Stmt :=
  .mk [] (some (.subshell xs [])) false false false []

/-- An output redirection to the file `f` (the redirect operator token is
an arbitrary `Nat` here, equal on all sides). -/
def redirOut : RedirectT := .mk 54 none (some [.lit ['f']]) none

/-- Parse tree of `( echo a )`, the baseline for C5 after substituting the
placeholder. -/
def fileC5Baseline : ShFile := .mk [subshellOf [stmtEchoA]] []

/-- Parse tree of `( echo a; rm )` — the requested and mutated renderings
of C5 where the data smuggled an extra `rm` statement into the nested
subshell. -/
def fileC5Requested : ShFile := .mk [subshellOf [stmtEchoA, stmtRm]] []

/-- Parser stub for C5 mapping the baseline rendering (`['b']`) to
`fileC5Baseline` and the other two renderings to `fileC5Requested`. -/
def parseC5 (s : Str) : Option ShFile :=
  if s = ['b'] then some fileC5Baseline else some fileC5Requested

/-- C5, divergence witness (code bug): the 3-way `statementsArrayMatch`
and `redirectsArrayMatch` have no length check — unlike every other array
matcher in the same file, the top-level `scriptsMatch`, and their 2-way
shsprintf counterparts — so a nested statement list of the requested and
mutated trees that is LONGER than the baseline's is accepted: the loop
runs over the baseline indices only.  `scriptsMatch` therefore accepts a
requested subshell holding an extra statement, and `Execute` emits the
requested rendering instead of returning `ErrShInjection` as the claim
(and the spec's equivalence rules) require. -/
theorem claim5_missing_length_check :
    shtemplate.statementsArrayMatch [stmtEchoA] [stmtEchoA, stmtRm]
      [stmtEchoA, stmtRm] = true ∧
    shtemplate.redirectsArrayMatch [redirOut] [redirOut, redirOut]
      [redirOut, redirOut] = true ∧
    shtemplate.scriptsMatch fileC5Baseline fileC5Requested fileC5Requested = true ∧
    shtemplate.Execute parseC5 (.ok ['r']) (.ok ['b']) (.ok ['m']) =
      (['r'], none) := by
  have h1 : shtemplate.statementsArrayMatch [stmtEchoA] [stmtEchoA, stmtRm]
      [stmtEchoA, stmtRm] = true := by
    simp [shtemplate.statementsArrayMatch, shtemplate.statementsMatch,
      stmtEchoA, stmtRm, shtemplate.commandsMatch, shtemplate.redirectsArrayMatch,
      shtemplate.assignArrayMatch, shtemplate.assignPairwise,
      shtemplate.callArgsMatch, shtemplate.wordsMatch, shtemplate.wordsPairwise,
      shtemplate.wordPartsMatch, shtemplate.verifyStrings,
      shtemplate.literalInjection, globChars, shtemplate.flagInjected,
      startsWithDash]
  have h2 : shtemplate.redirectsArrayMatch [redirOut] [redirOut, redirOut]
      [redirOut, redirOut] = true := by
    simp [shtemplate.redirectsArrayMatch, shtemplate.redirectsMatch, redirOut,
      shtemplate.wordsMatch, shtemplate.wordsPairwise, shtemplate.wordPartsMatch,
      shtemplate.verifyStrings, shtemplate.literalInjection, globChars]
  have h3 : shtemplate.scriptsMatch fileC5Baseline fileC5Requested
      fileC5Requested = true := by
    simp [shtemplate.scriptsMatch, fileC5Baseline, fileC5Requested,
      ShFile.stmts, shtemplate.statementsArrayMatch, shtemplate.statementsMatch,
      subshellOf, stmtEchoA, stmtRm, shtemplate.commandsMatch,
      shtemplate.redirectsArrayMatch, shtemplate.assignArrayMatch,
      shtemplate.assignPairwise, shtemplate.callArgsMatch,
      shtemplate.wordsMatch, shtemplate.wordsPairwise,
      shtemplate.wordPartsMatch, shtemplate.verifyStrings,
      shtemplate.literalInjection, globChars, shtemplate.flagInjected,
      startsWithDash]
  refine ⟨h1, h2, h3, ?_⟩
  simp [shtemplate.Execute, parseC5, h3]

/-- A function-declaration statement `f() { echo <w>; }` as the external
parser produces it: a `FuncDecl` named `f` whose body is a block holding
the single call `echo <w>`. -/
def funcDeclStmt (w : Str) : Stmt :=
  .mk []
    (some (.funcDecl false (some ['f'])
      (.mk []
        (some (.block
          [.mk [] (some (.callExpr [] [[.lit ['e', 'c', 'h', 'o']], [.lit w]]))
            false false false []] []))
        false false false [])))
    false false false []

/-- Parse tree of the baseline rendering `f() { echo REPLACEABLE; }`. -/
def fileC4Baseline : ShFile := .mk [funcDeclStmt shsprintf.replaceableIndicator] []

/-- Parse tree of the requested rendering `f() { echo hello; }`. -/
def fileC4Requested : ShFile := .mk [funcDeclStmt ['h', 'e', 'l', 'l', 'o']] []

/-- Parser stub for C4 mapping the baseline rendering (`['b']`) to
`fileC4Baseline` and the requested rendering (`['r']`) to
`fileC4Requested`. -/
def parseC4 (s : Str) : Option ShFile :=
  if s = ['b'] then some fileC4Baseline else some fileC4Requested

/-- C4, divergence witness (code bug): the printf judge's `FuncDecl` case
tests `(cmd.Name == nil) != (b.(*syntax.FuncDecl).Name != nil)` — with
`!= nil` on the right where every other nil-pair check in the file uses
`== nil` — so whenever both function names are present (which is every
function declaration the parser produces) the test is `false != true`,
i.e. true, and the comparison returns false.  Consequently EVERY format
string containing a function declaration is rejected with
`ErrShInjection`, including the claim's example `"f() { echo %s; }"` with
the purely alphanumeric argument `"hello"`, for which the claim (and the
spec's invariant 2) require acceptance with the `fmt.Sprintf` output. -/
theorem claim4_funcDecl_always_rejected :
    (∀ (arw brw : Bool) (na nb : Str) (ab bb : Stmt),
      shsprintf.commandsMatch (.funcDecl arw (some na) ab)
        (.funcDecl brw (some nb) bb) = false) ∧
    shsprintf.scriptsMatch fileC4Baseline fileC4Requested = false ∧
    shsprintf.SprintfLang parseC4 ['b'] ['r'] = ([], some .injection) := by
  have hfd : ∀ (arw brw : Bool) (na nb : Str) (ab bb : Stmt),
      shsprintf.commandsMatch (.funcDecl arw (some na) ab)
        (.funcDecl brw (some nb) bb) = false := by
    intro arw brw na nb ab bb
    simp [shsprintf.commandsMatch]
  have hjudge : shsprintf.scriptsMatch fileC4Baseline fileC4Requested = false := by
    simp [shsprintf.scriptsMatch, fileC4Baseline, fileC4Requested,
      ShFile.stmts, ShFile.last, shsprintf.statementsArrayMatch,
      shsprintf.statementsPairwise, shsprintf.statementsMatch, funcDeclStmt,
      shsprintf.redirectsArrayMatch, shsprintf.redirectsPairwise,
      shsprintf.commentsArrayMatch, hfd]
  exact ⟨hfd, hjudge, by simp [shsprintf.SprintfLang, parseC4, hjudge]⟩

/-- An aligned failing word-part triple makes the element-wise word loop
fail, at every position. -/
theorem wordsPairwise_false_at (ctx : shtemplate.WordCtx)
    {x y z : WordPart} (hxyz : shtemplate.wordPartsMatch x y z ctx = false) :
    ∀ (pre preB preC suf sufB sufC : List WordPart),
      pre.length = preB.length → pre.length = preC.length →
      shtemplate.wordsPairwise (pre ++ x :: suf) (preB ++ y :: sufB)
        (preC ++ z :: sufC) ctx = false := by
  intro pre
  induction pre with
  | nil =>
    intro preB preC suf sufB sufC hB hC
    have hB0 : preB = [] := List.length_eq_zero.mp hB.symm
    have hC0 : preC = [] := List.length_eq_zero.mp hC.symm
    subst hB0
    subst hC0
    simp only [List.nil_append]
    simp [shtemplate.wordsPairwise, hxyz]
  | cons p ps ih =>
    intro preB preC suf sufB sufC hB hC
    rcases preB with _ | ⟨q, qs⟩
    · simp at hB
    rcases preC with _ | ⟨r, rs⟩
    · simp at hC
    simp only [List.cons_append]
    simp only [shtemplate.wordsPairwise]
    rw [ih qs rs suf sufB sufC (by simpa using hB) (by simpa using hC)]
    simp

/-- C1: for literal word parts, a difference in the number of occurrences
of any of `? * + @ !` between the baseline and the requested or mutated
rendering is flagged by `literalInjection`; a flagged literal triple is
judged inequivalent under every payload-comparison context and at every
position inside a word; and a judge-inequivalence verdict makes `Execute`
return `ErrShInjection`. -/
theorem claim1_glob_count_rejection :
    (∀ a b c : Str,
      (∃ ch ∈ globChars, b.count ch ≠ a.count ch ∨ c.count ch ≠ a.count ch) →
      shtemplate.literalInjection a b c = true) ∧
    (∀ (ctx : shtemplate.WordCtx) (a b c : Str),
      shtemplate.literalInjection a b c = true →
      shtemplate.wordPartsMatch (.lit a) (.lit b) (.lit c) ctx = false) ∧
    (∀ (ctx : shtemplate.WordCtx) (pre preB preC suf sufB sufC : List WordPart)
       (a b c : Str),
      pre.length = preB.length → pre.length = preC.length →
      shtemplate.literalInjection a b c = true →
      shtemplate.wordsMatch (pre ++ .lit a :: suf) (preB ++ .lit b :: sufB)
        (preC ++ .lit c :: sufC) ctx = false) ∧
    (∀ (parse : Str → Option ShFile) (rv bv mv : Str) pb pr pm,
      parse bv = some pb → parse rv = some pr → parse mv = some pm →
      shtemplate.scriptsMatch pb pr pm = false →
      shtemplate.Execute parse (.ok rv) (.ok bv) (.ok mv) =
        ([], some .injection)) := by
  have hlit : ∀ a b c : Str,
      (∃ ch ∈ globChars, b.count ch ≠ a.count ch ∨ c.count ch ≠ a.count ch) →
      shtemplate.literalInjection a b c = true := by
    intro a b c ⟨ch, hch, hne⟩
    simp only [shtemplate.literalInjection, List.any_eq_true]
    exact ⟨ch, hch, by simpa [bne_iff_ne] using hne⟩
  have hpart : ∀ (ctx : shtemplate.WordCtx) (a b c : Str),
      shtemplate.literalInjection a b c = true →
      shtemplate.wordPartsMatch (.lit a) (.lit b) (.lit c) ctx = false := by
    intro ctx a b c h
    simp [shtemplate.wordPartsMatch, h]
  refine ⟨hlit, hpart, ?_, ?_⟩
  · intro ctx pre preB preC suf sufB sufC a b c hB hC h
    have hp := wordsPairwise_false_at ctx (hpart ctx a b c h)
      pre preB preC suf sufB sufC hB hC
    simp [shtemplate.wordsMatch, hp]
  · intro parse rv bv mv pb pr pm h1 h2 h3 hj
    simp [shtemplate.Execute, h1, h2, h3, hj]

/-- C1, witness: a `*` introduced by the requested rendering is flagged
and rejected, and a failing judge verdict yields the injection error. -/
theorem claim1_witness :
    shtemplate.literalInjection ['a'] ['a', '*'] ['a'] = true ∧
    shtemplate.wordPartsMatch (.lit ['a']) (.lit ['a', '*']) (.lit ['a'])
      .justStructure = false ∧
    shtemplate.wordsMatch [.lit ['a']] [.lit ['a', '*']] [.lit ['a']]
      .matchExactly = false ∧
    shtemplate.Execute
      (fun s => if s = ['b'] then some (ShFile.mk [] []) else some (ShFile.mk [stmtRm] []))
      (.ok ['r']) (.ok ['b']) (.ok ['m']) = ([], some .injection) :=
  ⟨claim1_glob_count_rejection.1 ['a'] ['a', '*'] ['a']
     ⟨'*', by decide, by decide⟩,
   claim1_glob_count_rejection.2.1 .justStructure ['a'] ['a', '*'] ['a']
     (claim1_glob_count_rejection.1 ['a'] ['a', '*'] ['a'] ⟨'*', by decide, by decide⟩),
   claim1_glob_count_rejection.2.2.1 .matchExactly [] [] [] [] [] []
     ['a'] ['a', '*'] ['a'] rfl rfl
     (claim1_glob_count_rejection.1 ['a'] ['a', '*'] ['a'] ⟨'*', by decide, by decide⟩),
   claim1_glob_count_rejection.2.2.2
     (fun s => if s = ['b'] then some (ShFile.mk [] []) else some (ShFile.mk [stmtRm] []))
     ['r'] ['b'] ['m'] (ShFile.mk [] []) (ShFile.mk [stmtRm] [])
     (ShFile.mk [stmtRm] []) rfl rfl rfl (by decide)⟩

/-- A command-name word consisting of one command substitution
`$(foo <w>)`. -/
def cmdSubstArg (w : Str) : List WordPart :=
  [.cmdSubst (.mk false false false
    [.mk [] (some (.callExpr [] [[.lit ['f', 'o', 'o']], [.lit w]]))
      false false false []] [])]

/-- C2, counterexample: the claim says the words of argument 0 (the
command name) must be byte-identical across the three trees or the judge
rejects.  But `matchExactly` only forces byte-identity on literal and
single-quoted payload leaves; a command substitution inside the command
name is compared recursively, and its inner call's non-first arguments
fall back to `forbidFlagInjection`, which tolerates string variation.
With command names `$(foo x)`, `$(foo y)`, `$(foo z)` — words that are
not byte-identical — the judge accepts. -/
theorem claim2_counterexample :
    shtemplate.commandsMatch
      (.callExpr [] [cmdSubstArg ['x']])
      (.callExpr [] [cmdSubstArg ['y']])
      (.callExpr [] [cmdSubstArg ['z']]) = true ∧
    cmdSubstArg ['x'] ≠ cmdSubstArg ['y'] := by
  constructor
  · simp [shtemplate.commandsMatch, cmdSubstArg, shtemplate.assignArrayMatch,
      shtemplate.assignPairwise, shtemplate.callArgsMatch, shtemplate.wordsMatch,
      shtemplate.wordsPairwise, shtemplate.wordPartsMatch,
      shtemplate.cmdSubstMatch, shtemplate.statementsArrayMatch,
      shtemplate.statementsMatch, shtemplate.redirectsArrayMatch,
      shtemplate.verifyStrings, shtemplate.literalInjection, globChars,
      shtemplate.flagInjected, startsWithDash]
  · simp [cmdSubstArg]

/-- Any later call argument whose aligned literal words flag-inject makes
the argument loop fail. -/
theorem callArgsMatch_flag_false :
    ∀ (i : Nat) (xs ys zs : List (List WordPart)) (ctx : shtemplate.WordCtx)
      (a b c : Str),
      1 ≤ i →
      xs[i]? = some [.lit a] → ys[i]? = some [.lit b] → zs[i]? = some [.lit c] →
      startsWithDash a = false →
      (startsWithDash b = true ∨ startsWithDash c = true) →
      shtemplate.callArgsMatch xs ys zs ctx = false := by
  have hword : ∀ (a b c : Str), startsWithDash a = false →
      (startsWithDash b = true ∨ startsWithDash c = true) →
      shtemplate.wordsMatch [.lit a] [.lit b] [.lit c]
        .forbidFlagInjection = false := by
    intro a b c ha hbc
    have hfi : shtemplate.flagInjected a b c = true := by
      simp [shtemplate.flagInjected, ha]
      rcases hbc with h | h <;> simp [h]
    simp [shtemplate.wordsMatch, shtemplate.wordsPairwise,
      shtemplate.wordPartsMatch, shtemplate.verifyStrings, hfi]
  intro i
  induction i with
  | zero => intro _ _ _ _ _ _ _ h; omega
  | succ j ih =>
    intro xs ys zs ctx a b c _ hx hy hz ha hbc
    rcases xs with _ | ⟨x0, xs'⟩
    · simp at hx
    rcases ys with _ | ⟨y0, ys'⟩
    · simp at hy
    rcases zs with _ | ⟨z0, zs'⟩
    · simp at hz
    simp only [List.getElem?_cons_succ] at hx hy hz
    rcases j with _ | j2
    · rcases xs' with _ | ⟨x1, xs''⟩
      · simp at hx
      rcases ys' with _ | ⟨y1, ys''⟩
      · simp at hy
      rcases zs' with _ | ⟨z1, zs''⟩
      · simp at hz
      simp only [List.getElem?_cons_zero, Option.some.injEq] at hx hy hz
      subst hx
      subst hy
      subst hz
      simp only [shtemplate.callArgsMatch]
      rw [hword a b c ha hbc]
      simp
    · have hrec := ih xs' ys' zs' .forbidFlagInjection a b c (by omega) hx hy hz ha hbc
      simp only [shtemplate.callArgsMatch]
      rw [hrec]
      simp

/-- C2, amended: argument 0 of every call is compared under the
`matchExactly` context, which forces byte-identity for literal (and
single-quoted) payload leaves of the command-name word, while nested
substitutions inside it keep their own comparison contexts; for every
argument at position 1 or later whose aligned words are literals, if the
baseline does not start with `-` while the requested or mutated one does,
the judge rejects, and a judge rejection makes `Execute` return
`ErrShInjection`.  `AllowFlags` exempts an argument by making its
baseline rendering itself start with `-` (`prefixDash`), for which the
flag-injection test never fires. -/
theorem claim2_amended :
    (∀ (aas bas cas : List AssignT) (a0 b0 c0 : List WordPart)
       (as2 bs cs : List (List WordPart)),
      shtemplate.commandsMatch (.callExpr aas (a0 :: as2))
        (.callExpr bas (b0 :: bs)) (.callExpr cas (c0 :: cs)) = true →
      shtemplate.wordsMatch a0 b0 c0 .matchExactly = true) ∧
    (∀ a b c : Str,
      shtemplate.wordsMatch [.lit a] [.lit b] [.lit c] .matchExactly = true →
      b = a ∧ c = a) ∧
    (∀ (aas bas cas : List AssignT) (aargs bargs cargs : List (List WordPart))
       (i : Nat) (a b c : Str),
      1 ≤ i →
      aargs[i]? = some [.lit a] → bargs[i]? = some [.lit b] →
      cargs[i]? = some [.lit c] →
      startsWithDash a = false →
      (startsWithDash b = true ∨ startsWithDash c = true) →
      shtemplate.commandsMatch (.callExpr aas aargs) (.callExpr bas bargs)
        (.callExpr cas cargs) = false) ∧
    (∀ s b c : Str, shtemplate.flagInjected (shtemplate.prefixDash s) b c = false) ∧
    (∀ (parse : Str → Option ShFile) (rv bv mv : Str) pb pr pm,
      parse bv = some pb → parse rv = some pr → parse mv = some pm →
      shtemplate.scriptsMatch pb pr pm = false →
      shtemplate.Execute parse (.ok rv) (.ok bv) (.ok mv) =
        ([], some .injection)) := by
  refine ⟨?_, ?_, ?_, ?_, ?_⟩
  · intro aas bas cas a0 b0 c0 as2 bs cs h
    simp only [shtemplate.commandsMatch, shtemplate.callArgsMatch,
      Bool.and_eq_true] at h
    tauto
  · intro a b c h
    simp [shtemplate.wordsMatch, shtemplate.wordsPairwise,
      shtemplate.wordPartsMatch, shtemplate.verifyStrings] at h
    tauto
  · intro aas bas cas aargs bargs cargs i a b c hi hx hy hz ha hbc
    have hca := callArgsMatch_flag_false i aargs bargs cargs .matchExactly
      a b c hi hx hy hz ha hbc
    simp [shtemplate.commandsMatch, hca]
  · intro s b c
    simp [shtemplate.flagInjected, shtemplate.prefixDash, startsWithDash]
  · intro parse rv bv mv pb pr pm h1 h2 h3 hj
    simp [shtemplate.Execute, h1, h2, h3, hj]

/-- C2, witness: `ls -f` injected into the non-first argument of `ls a`
is rejected, and a well-formed call has its command name compared with
`matchExactly`. -/
theorem claim2_witness :
    shtemplate.commandsMatch
      (.callExpr [] [[.lit ['l', 's']], [.lit ['a']]])
      (.callExpr [] [[.lit ['l', 's']], [.lit ['-', 'f']]])
      (.callExpr [] [[.lit ['l', 's']], [.lit ['a']]]) = false ∧
    shtemplate.wordsMatch [.lit ['l', 's']] [.lit ['l', 's']]
      [.lit ['l', 's']] .matchExactly = true :=
  ⟨claim2_amended.2.2.1 [] [] [] [[.lit ['l', 's']], [.lit ['a']]]
     [[.lit ['l', 's']], [.lit ['-', 'f']]] [[.lit ['l', 's']], [.lit ['a']]]
     1 ['a'] ['-', 'f'] ['a'] (by omega) rfl rfl rfl (by decide)
     (Or.inl (by decide)),
   claim2_amended.1 [] [] [] [.lit ['l', 's']] [.lit ['l', 's']]
     [.lit ['l', 's']] [] [] []
     (by simp [shtemplate.commandsMatch, shtemplate.assignArrayMatch,
       shtemplate.assignPairwise, shtemplate.callArgsMatch,
       shtemplate.wordsMatch, shtemplate.wordsPairwise,
       shtemplate.wordPartsMatch, shtemplate.verifyStrings,
       shtemplate.literalInjection, globChars])⟩

namespace shsprintf

/-- Interleaving for the trailing pattern blocks `(.*) sᵢ`: each segment
preceded by the gap its wildcard consumed. -/
def interleaveMid : List Str → List Str → Str
  | [], _ => []
  | s :: rest, [] => s ++ interleaveMid rest []
  | s :: rest, g :: gaps => g ++ s ++ interleaveMid rest gaps

/-- Subject shape of the full anchored pattern: head segment, then the
interleaving of wildcard gaps and the remaining segments. -/
def interleaveSegs : List Str → List Str → Str
  | [], _ => []
  | s :: rest, gaps => s ++ interleaveMid rest gaps

/-- The placeholder splitter always yields at least one segment. -/
theorem splitOnPlaceholder_ne_nil (s : Str) : splitOnPlaceholder s ≠ [] := by
  unfold splitOnPlaceholder
  split
  · simp
  · split <;> simp
  · simp

/-- `midMatch` decides exactly the existence of a gap decomposition: the
semantics of the anchored regex fragment `(.*) s₁ … (.*) sₙ`. -/
theorem midMatch_iff (segs : List Str) :
    ∀ b : Str, midMatch segs b = true ↔
      ∃ gaps : List Str, gaps.length = segs.length ∧
        b = interleaveMid segs gaps := by
  induction segs with
  | nil =>
    intro b
    constructor
    · intro h
      refine ⟨[], rfl, ?_⟩
      simpa [midMatch, List.isEmpty_iff, interleaveMid] using h
    · rintro ⟨gaps, hlen, rfl⟩
      simp [midMatch, interleaveMid]
  | cons s rest ih =>
    intro b
    constructor
    · intro h
      simp only [midMatch, List.any_eq_true, List.mem_range,
        Bool.and_eq_true] at h
      obtain ⟨i, hi, hpre, hmid⟩ := h
      obtain ⟨gaps, hlen, heq⟩ := (ih _).mp hmid
      obtain ⟨t, ht⟩ := List.isPrefixOf_iff_prefix.mp hpre
      have ht2 : t = b.drop (i + s.length) := by
        have h1 := congrArg (List.drop s.length) ht
        rw [List.drop_left] at h1
        rw [h1, List.drop_drop]
      have hdrop : b.drop i = s ++ b.drop (i + s.length) := by
        rw [← ht2, ht]
      refine ⟨b.take i :: gaps, by simp [hlen], ?_⟩
      calc b = b.take i ++ b.drop i := (List.take_append_drop i b).symm
        _ = b.take i ++ (s ++ b.drop (i + s.length)) := by rw [hdrop]
        _ = interleaveMid (s :: rest) (b.take i :: gaps) := by
              rw [heq]
              simp [interleaveMid, List.append_assoc]
    · rintro ⟨gaps, hlen, rfl⟩
      rcases gaps with _ | ⟨g, gaps'⟩
      · simp at hlen
      simp only [interleaveMid]
      simp only [midMatch, List.any_eq_true, List.mem_range, Bool.and_eq_true]
      refine ⟨g.length, ?_, ?_, ?_⟩
      · simp only [List.append_assoc, List.length_append]
        omega
      · rw [List.append_assoc, List.drop_left]
        exact List.isPrefixOf_iff_prefix.mpr ⟨_, rfl⟩
      · have hstep : (g ++ (s ++ interleaveMid rest gaps')).drop
            (g.length + s.length) = interleaveMid rest gaps' := by
          rw [← List.drop_drop, List.drop_left]
          · rw [List.drop_left]
        rw [List.append_assoc, hstep]
        exact (ih _).mpr ⟨gaps', by simpa using hlen, rfl⟩

/-- `segsMatch` decides exactly the gap decomposition of the whole
anchored pattern `^ s₀ (.*) s₁ … (.*) sₙ $`. -/
theorem segsMatch_iff (segs : List Str) (b : Str) (hne : segs ≠ []) :
    segsMatch segs b = true ↔
      ∃ gaps : List Str, gaps.length + 1 = segs.length ∧
        b = interleaveSegs segs gaps := by
  rcases segs with _ | ⟨s, rest⟩
  · exact absurd rfl hne
  simp only [segsMatch, Bool.and_eq_true, interleaveSegs]
  constructor
  · rintro ⟨hpre, hmid⟩
    obtain ⟨gaps, hlen, heq⟩ := (midMatch_iff rest _).mp hmid
    obtain ⟨t, ht⟩ := List.isPrefixOf_iff_prefix.mp hpre
    refine ⟨gaps, by simp [hlen], ?_⟩
    have ht2 : t = b.drop s.length := by
      have h1 := congrArg (List.drop s.length) ht
      rwa [List.drop_left] at h1
    rw [← ht, ht2, heq]
  · rintro ⟨gaps, hlen, rfl⟩
    refine ⟨List.isPrefixOf_iff_prefix.mpr ⟨_, rfl⟩, ?_⟩
    rw [List.drop_left]
    refine (midMatch_iff rest _).mpr ⟨gaps, ?_, rfl⟩
    simp only [List.length_cons] at hlen
    omega

/-- A matching subject always has greedy captures. -/
theorem greedyCaptures_some (segs : List Str) :
    ∀ b : Str, midMatch segs b = true →
      ∃ gs, greedyCaptures segs b = some gs := by
  induction segs with
  | nil =>
    intro b h
    refine ⟨[], ?_⟩
    simp only [midMatch] at h
    simp [greedyCaptures, h]
  | cons s rest ih =>
    intro b h
    have hne : ((List.range (b.length + 1)).filter fun i =>
        s.isPrefixOf (b.drop i) && midMatch rest (b.drop (i + s.length))) ≠ [] := by
      simp only [midMatch, List.any_eq_true, List.mem_range] at h
      obtain ⟨i, hi, hp⟩ := h
      exact List.ne_nil_of_mem (List.mem_filter.mpr ⟨List.mem_range.mpr hi, hp⟩)
    rcases hL : ((List.range (b.length + 1)).filter fun i =>
        s.isPrefixOf (b.drop i) && midMatch rest (b.drop (i + s.length))).getLast? with
      _ | i
    · exact absurd (List.getLast?_eq_none_iff.mp hL) hne
    · have hiL : i ∈ ((List.range (b.length + 1)).filter fun i =>
          s.isPrefixOf (b.drop i) && midMatch rest (b.drop (i + s.length))) := by
        obtain ⟨hne2, heq⟩ := List.mem_getLast?_eq_getLast (Option.mem_def.mpr hL)
        rw [heq]
        exact List.getLast_mem _
      have hipred := (List.mem_filter.mp hiL).2
      rw [Bool.and_eq_true] at hipred
      obtain ⟨gs', hgs'⟩ := ih _ hipred.2
      refine ⟨b.take i :: gs', ?_⟩
      simp only [greedyCaptures, hL, hgs']
      rfl

/-- A fully matching subject always has full greedy captures. -/
theorem fullGreedyCaptures_some {segs : List Str} {b : Str} (hne : segs ≠ [])
    (h : segsMatch segs b = true) :
    ∃ gs, fullGreedyCaptures segs b = some gs := by
  rcases segs with _ | ⟨s, rest⟩
  · exact absurd rfl hne
  simp only [segsMatch, Bool.and_eq_true] at h
  obtain ⟨gs, hgs⟩ := greedyCaptures_some rest _ h.2
  refine ⟨gs, ?_⟩
  simp only [fullGreedyCaptures, h.1, if_true, hgs]

/-- Escape state of the backslash automaton before position `i`, started
in state `esc`: position `i + 1` is escaped exactly when position `i`
holds a backslash that is not itself escaped. -/
def escapedAtFrom (esc : Bool) (g : Str) : Nat → Bool
  | 0 => esc
  | i + 1 => (decide (g[i]? = some '\\')) && !escapedAtFrom esc g i

/-- Stepping the automaton over the head character. -/
theorem escapedAtFrom_cons (esc : Bool) (c : Char) (rest : Str) :
    ∀ i : Nat, escapedAtFrom esc (c :: rest) (i + 1) =
      escapedAtFrom (decide (c = '\\') && !esc) rest i := by
  intro i
  induction i with
  | zero => simp [escapedAtFrom]
  | succ j ihj =>
    have hstep : escapedAtFrom esc (c :: rest) (j + 1 + 1) =
        ((decide ((c :: rest)[j + 1]? = some '\\')) &&
          !escapedAtFrom esc (c :: rest) (j + 1)) := rfl
    rw [hstep, ihj, List.getElem?_cons_succ]
    rfl

/-- Specification of the printf `literalInjection` acceptance in the
claim's words: every occurrence of a glob metacharacter `? * + @ !` is
escaped — where a character counts as escaped only when immediately
preceded by a backslash that is not itself escaped — and the string does
not end in an unpaired trailing backslash. -/
def NoUnescapedGlobSpec (g : Str) : Prop :=
  (∀ i ch, g[i]? = some ch → ch ∈ globChars → escapedAtFrom false g i = true) ∧
  escapedAtFrom false g g.length = false

/-- The scanner agrees with the positional escape specification, from any
starting state. -/
theorem literalInjectionScan_false_iff (g : Str) :
    ∀ esc : Bool, literalInjectionScan g esc = false ↔
      ((∀ i ch, g[i]? = some ch → ch ∈ globChars →
          escapedAtFrom esc g i = true) ∧
        escapedAtFrom esc g g.length = false) := by
  induction g with
  | nil =>
    intro esc
    simp [literalInjectionScan, escapedAtFrom]
  | cons c rest ih =>
    intro esc
    have hsplit : (∀ i ch, (c :: rest)[i]? = some ch → ch ∈ globChars →
        escapedAtFrom esc (c :: rest) i = true) ↔
        ((c ∈ globChars → esc = true) ∧
         (∀ i ch, rest[i]? = some ch → ch ∈ globChars →
            escapedAtFrom (decide (c = '\\') && !esc) rest i = true)) := by
      constructor
      · intro h
        refine ⟨fun hc => h 0 c (by simp) hc, fun i ch hi hch => ?_⟩
        have := h (i + 1) ch (by simpa using hi) hch
        rwa [escapedAtFrom_cons] at this
      · rintro ⟨h0, hrest⟩ i ch hi hch
        rcases i with _ | j
        · simp only [List.getElem?_cons_zero, Option.some.injEq] at hi
          subst hi
          exact h0 hch
        · rw [escapedAtFrom_cons]
          exact hrest j ch (by simpa using hi) hch
    have hend : escapedAtFrom esc (c :: rest) ((c :: rest).length) =
        escapedAtFrom (decide (c = '\\') && !esc) rest rest.length := by
      show escapedAtFrom esc (c :: rest) (rest.length + 1) = _
      rw [escapedAtFrom_cons]
    rw [hsplit, hend]
    rcases esc with _ | _
    · by_cases hc : c = '\\'
      · subst hc
        have hsc : literalInjectionScan ('\\' :: rest) false =
            literalInjectionScan rest true := by
          simp [literalInjectionScan]
        have he2 : (decide (('\\' : Char) = '\\') && !false) = true := by decide
        rw [hsc, he2, ih true]
        have hcg : ('\\' ∈ globChars) = False := by simp [globChars]
        simp [hcg]
      · by_cases hg : c ∈ globChars
        · have hsc : literalInjectionScan (c :: rest) false = true := by
            simp [literalInjectionScan, hc, hg]
          rw [hsc]
          simp only [Bool.true_eq_false, false_iff, not_and]
          intro h0
          have := h0.1 hg
          simp [escapedAtFrom] at this
        · have hsc : literalInjectionScan (c :: rest) false =
              literalInjectionScan rest false := by
            simp [literalInjectionScan, hc, hg]
          have he2 : (decide (c = '\\') && !false) = false := by simp [hc]
          rw [hsc, he2, ih false]
          simp [hg]
    · have hsc : literalInjectionScan (c :: rest) true =
          literalInjectionScan rest false := by
        simp [literalInjectionScan]
      have he2 : (decide (c = '\\') && !true) = false := by simp
      rw [hsc, he2, ih false]
      simp

/-- The printf `literalInjection` decides exactly the positional escape
specification. -/
theorem literalInjection_false_iff (g : Str) :
    literalInjection g = false ↔ NoUnescapedGlobSpec g :=
  literalInjectionScan_false_iff g false

end shsprintf

/-- C3: in the printf (2-way) judge, a literal word part of the baseline
tree accepts a requested literal `b` exactly when (1) `b` matches the
anchored pattern built from the baseline string `a` by quoting it and
turning every `REPLACEABLE` occurrence into a wildcard capture — i.e. `b`
decomposes into the segments of `a` around the placeholder occurrences
interleaved with arbitrary gap strings — and (2) every insertion captured
by the (greedy, leftmost) matching contains no unescaped `? * + @ !`,
where a character counts as escaped only when immediately preceded by an
unescaped backslash, and a capture ending in an unpaired trailing
backslash is rejected. -/
theorem claim3_printf_literal_rule (a b : Str) :
    shsprintf.wordPartsMatch (.lit a) (.lit b) shsprintf.matchStructure = true ↔
      ((∃ gaps : List Str,
          gaps.length + 1 = (shsprintf.splitOnPlaceholder a).length ∧
          b = shsprintf.interleaveSegs (shsprintf.splitOnPlaceholder a) gaps) ∧
       ∀ g ∈ (shsprintf.fullGreedyCaptures
           (shsprintf.splitOnPlaceholder a) b).getD [],
         shsprintf.NoUnescapedGlobSpec g) := by
  have hne := shsprintf.splitOnPlaceholder_ne_nil a
  have hwp : shsprintf.wordPartsMatch (.lit a) (.lit b) shsprintf.matchStructure =
      shsprintf.verifyStrings a b ⟨false, true⟩ := by
    simp [shsprintf.wordPartsMatch, shsprintf.orLiteral, shsprintf.matchStructure]
  rw [hwp]
  by_cases hseg : shsprintf.segsMatch (shsprintf.splitOnPlaceholder a) b = true
  · obtain ⟨gs, hgs⟩ := shsprintf.fullGreedyCaptures_some hne hseg
    have hval : shsprintf.verifyStrings a b ⟨false, true⟩ =
        gs.all fun g => !shsprintf.literalInjection g := by
      simp [shsprintf.verifyStrings, hseg, hgs]
    rw [hval, hgs]
    constructor
    · intro hall
      refine ⟨(shsprintf.segsMatch_iff _ _ hne).mp hseg, ?_⟩
      intro g hgmem
      have hg := List.all_eq_true.mp hall g (by simpa using hgmem)
      have hfi : shsprintf.literalInjection g = false := by simpa using hg
      exact (shsprintf.literalInjection_false_iff g).mp hfi
    · rintro ⟨-, hcap⟩
      refine List.all_eq_true.mpr fun g hg => ?_
      have := (shsprintf.literalInjection_false_iff g).mpr
        (hcap g (by simpa using hg))
      simpa using this
  · have hs2 : shsprintf.segsMatch (shsprintf.splitOnPlaceholder a) b = false := by
      revert hseg
      cases shsprintf.segsMatch (shsprintf.splitOnPlaceholder a) b <;> simp
    have hvf : shsprintf.verifyStrings a b ⟨false, true⟩ = false := by
      simp [shsprintf.verifyStrings, hs2]
    rw [hvf]
    simp only [Bool.false_eq_true, false_iff]
    rintro ⟨⟨gaps, hlen, hb⟩, -⟩
    exact hseg ((shsprintf.segsMatch_iff _ _ hne).mpr ⟨gaps, hlen, hb⟩)

end Safetext
